import Mathlib

/-! Map geometry of freeserf.

A shallow embedding of `src/map-geometry.h`: the direction enumeration with
`turn_direction` / `reverse_direction`, and the class `MapGeometry` with its
constructor, the position encoding (`pos`, `pos_col`, `pos_row`), the toroidal
addition `pos_add` and the movement functions.

Machine integers are modelled explicitly.  An `unsigned int` is a natural number
below `2^32`, an `int` is an integer in `[-2^31, 2^31)`; every conversion the
C++ source performs implicitly is written out (`to_unsigned`, `to_int`), and
arithmetic wraps modulo `2^32`.
-/

namespace Freeserf

/-! ## 32-bit machine arithmetic -/

/-- Conversion of an integer value to `unsigned int`: reduction modulo `2^32`. -/
def to_unsigned (x : Int) : Nat := (x % 4294967296).toNat

/-- Conversion of an integer value to `int`: the two's complement reading of its
low 32 bits. -/
def to_int (x : Int) : Int := (x + 2147483648) % 4294967296 - 2147483648

/-- Addition of two `int` values, wrapping on overflow. -/
def int_add (a b : Int) : Int := to_int (a + b)

/-- The `%` operator on `int`: the remainder of the division truncated towards zero. -/
def int_rem (a b : Int) : Int := Int.tmod a b

/-- The `<<` operator with an `int` left operand and a count below 32: the two's
complement reading of the shifted bits.  C++ defines the shift for such counts
only.  On a constructed geometry every use of `int_shl` has one (`row_shift_` is
at most 15); the one shift whose count can be larger, `1 << row_size_` in the
constructor, goes through `shl_wide`. -/
def int_shl (a : Int) (n : Nat) : Int := to_int (a * 2 ^ n)

/-- What a build of the program makes of a left shift of an `int` by 32 or more,
which C++ leaves undefined.  The two outcomes that builds of this code show:
`masked`, the shifter takes the count modulo 32 (the shift is done at run time);
`flushed`, all bits are shifted out and the result is 0 (the shift is folded at
compile time). -/
inductive Shifter where
  | masked
  | flushed
deriving DecidableEq, Repr

/-- The `<<` operator with an `int` left operand and any count: `int_shl` for a
count below 32, and otherwise what the build makes of it. -/
def shl_wide (sh : Shifter) (a : Int) (n : Nat) : Int :=
  if n < 32 then int_shl a n
  else
    match sh with
    | Shifter.masked => int_shl a (n % 32)
    | Shifter.flushed => 0

/-- The `>>` operator with an `int` left operand and a count below 32:
arithmetic shift. -/
def int_shr (a : Int) (n : Nat) : Int := a >>> n

/-- The `|` operator on two `int` values, taken on their bit patterns. -/
def int_or (a b : Int) : Int := to_int ((to_unsigned a ||| to_unsigned b : Nat) : Int)

/-- Addition of two `unsigned int` values. -/
def uint_add (a b : Nat) : Nat := (a + b) % 4294967296

/-- Subtraction of two `unsigned int` values. -/
def uint_sub (a b : Nat) : Nat := (a + 4294967296 - b % 4294967296) % 4294967296

/-- Multiplication of two `unsigned int` values. -/
def uint_mul (a b : Nat) : Nat := (a * b) % 4294967296

/-- The `<<` operator with an `unsigned int` left operand and a count below 32. -/
def uint_shl (a : Nat) (n : Nat) : Nat := (a <<< n) % 4294967296

/-! ## Directions -/

/-- The enumeration `Direction`, as its underlying integer value. -/
abbrev Direction := Int

def DirectionNone : Direction := -1
def DirectionRight : Direction := 0
def DirectionDownRight : Direction := 1
def DirectionDown : Direction := 2
def DirectionLeft : Direction := 3
def DirectionUpLeft : Direction := 4
def DirectionUp : Direction := 5
def DirectionUpRight : Direction := 6
def DirectionDownLeft : Direction := 7

/-- Return the given direction turned clockwise a number of times. -/
def turn_direction (d : Direction) (times : Int) : Direction :=
  let td := int_rem (int_add d times) 6
  if td < 0 then int_add td 6 else td

/-- Return the given direction reversed. -/
def reverse_direction (d : Direction) : Direction := turn_direction d 3

/-! ## The geometry -/

/-- A map position: an `unsigned int`. -/
abbrev MapPos := Nat

/-- The sentinel position, the largest `unsigned int`. -/
def bad_map_pos : MapPos := 4294967295

/-- The members of the class `MapGeometry`. -/
structure MapGeometry where
  size_ : Nat
  dirs : List MapPos
  col_size_ : Nat
  row_size_ : Nat
  cols_ : Nat
  rows_ : Nat
  col_mask_ : Nat
  row_mask_ : Nat
  row_shift_ : Nat
deriving DecidableEq, Repr

namespace MapGeometry

/-- The constructor `MapGeometry(unsigned int size)`, in a build `sh` of the
program.  A failed assertion is the result `none`.  The array `dirs` is listed
in the order of the enumeration: Right, DownRight, Down, Left, UpLeft, Up,
UpRight, DownLeft.  All members are `unsigned int`: at size 0 the subtraction
`size_ - 1` wraps, `row_size_` is 2147483652, and `1 << row_size_` is a shift
that C++ leaves undefined; its value is that of the build (`shl_wide`): 16 in a
`masked` build and 0 in a `flushed` one.  For the sizes 1 to 20 both counts are
below 32 and the build plays no part. -/
def ctor (sh : Shifter) (size : Nat) : Option MapGeometry :=
  if size ≤ 20 then
    let col_size := uint_add 5 (size / 2)
    let row_size := uint_add 5 (uint_sub size 1 / 2)
    let cols := to_unsigned (shl_wide sh 1 col_size)
    let rows := to_unsigned (shl_wide sh 1 row_size)
    let col_mask := uint_sub cols 1
    let row_mask := uint_sub rows 1
    let row_shift := col_size
    let right := to_unsigned 1 &&& col_mask
    let left := to_unsigned (-1) &&& col_mask
    let down := uint_shl (to_unsigned 1 &&& row_mask) row_shift
    let up := uint_shl (to_unsigned (-1) &&& row_mask) row_shift
    some
      { size_ := size
        dirs := [right, right ||| down, down, left, left ||| up, up, right ||| up, left ||| down]
        col_size_ := col_size
        row_size_ := row_size
        cols_ := cols
        rows_ := rows
        col_mask_ := col_mask
        row_mask_ := row_mask
        row_shift_ := row_shift }
  else none

def size (g : MapGeometry) : Nat := g.size_
def cols (g : MapGeometry) : Nat := g.cols_
def rows (g : MapGeometry) : Nat := g.rows_
def col_mask (g : MapGeometry) : Nat := g.col_mask_
def row_mask (g : MapGeometry) : Nat := g.row_mask_
def row_shift (g : MapGeometry) : Nat := g.row_shift_
def tile_count (g : MapGeometry) : Nat := uint_mul g.cols_ g.rows_

/-- Extract the column: `int pos_col(int pos)`. -/
def pos_col (g : MapGeometry) (pos : Int) : Int :=
  to_int ((to_unsigned pos &&& g.col_mask_ : Nat) : Int)

/-- Extract the row: `int pos_row(int pos)`. -/
def pos_row (g : MapGeometry) (pos : Int) : Int :=
  to_int ((to_unsigned (int_shr pos g.row_shift_) &&& g.row_mask_ : Nat) : Int)

/-- Translate a col, row coordinate to a MapPos value: `MapPos pos(int x, int y)`. -/
def pos (g : MapGeometry) (x y : Int) : MapPos :=
  to_unsigned (int_or (int_shl y g.row_shift_) x)

/-- Addition of two map positions. -/
def pos_add (g : MapGeometry) (pos_ off : MapPos) : MapPos :=
  g.pos
    (to_int ((to_unsigned (int_add (g.pos_col (to_int pos_)) (g.pos_col (to_int off)))
      &&& g.col_mask_ : Nat) : Int))
    (to_int ((to_unsigned (int_add (g.pos_row (to_int pos_)) (g.pos_row (to_int off)))
      &&& g.row_mask_ : Nat) : Int))

/-- The array access `dirs[dir]`; an index outside the array gives `none`. -/
def dirs_at (g : MapGeometry) (dir : Direction) : Option MapPos :=
  if 0 ≤ dir then g.dirs.get? dir.toNat else none

/-- Movement of a map position according to a direction. -/
def move (g : MapGeometry) (pos : MapPos) (dir : Direction) : Option MapPos :=
  (g.dirs_at dir).map (fun off => g.pos_add pos off)

def move_right (g : MapGeometry) (pos : MapPos) : Option MapPos := g.move pos DirectionRight
def move_down_right (g : MapGeometry) (pos : MapPos) : Option MapPos :=
  g.move pos DirectionDownRight
def move_down (g : MapGeometry) (pos : MapPos) : Option MapPos := g.move pos DirectionDown
def move_left (g : MapGeometry) (pos : MapPos) : Option MapPos := g.move pos DirectionLeft
def move_up_left (g : MapGeometry) (pos : MapPos) : Option MapPos := g.move pos DirectionUpLeft
def move_up (g : MapGeometry) (pos : MapPos) : Option MapPos := g.move pos DirectionUp
def move_up_right (g : MapGeometry) (pos : MapPos) : Option MapPos :=
  g.move pos DirectionUpRight
def move_down_left (g : MapGeometry) (pos : MapPos) : Option MapPos :=
  g.move pos DirectionDownLeft

/-- Movement by `n` columns: `pos_add(pos, dirs[DirectionRight]*n)`. -/
def move_right_n (g : MapGeometry) (pos : MapPos) (n : Int) : Option MapPos :=
  (g.dirs_at DirectionRight).map (fun off => g.pos_add pos (uint_mul off (to_unsigned n)))

/-- Movement by `n` rows: `pos_add(pos, dirs[DirectionDown]*n)`. -/
def move_down_n (g : MapGeometry) (pos : MapPos) (n : Int) : Option MapPos :=
  (g.dirs_at DirectionDown).map (fun off => g.pos_add pos (uint_mul off (to_unsigned n)))

/-- The derived members of a geometry with `2^cs` columns and `2^rs` rows, the
column in the low `cs` bits of a position and the row in the next `rs` bits. -/
structure Shaped (g : MapGeometry) (cs rs : Nat) : Prop where
  cs_pos : 1 ≤ cs
  rs_pos : 1 ≤ rs
  bits : cs + rs ≤ 31
  cols_eq : g.cols_ = 2 ^ cs
  rows_eq : g.rows_ = 2 ^ rs
  col_mask_eq : g.col_mask_ = 2 ^ cs - 1
  row_mask_eq : g.row_mask_ = 2 ^ rs - 1
  row_shift_eq : g.row_shift_ = cs
  dirs_eq : g.dirs =
    [2 ^ cs * 0 + 1, 2 ^ cs * 1 + 1, 2 ^ cs * 1 + 0, 2 ^ cs * 0 + (2 ^ cs - 1),
      2 ^ cs * (2 ^ rs - 1) + (2 ^ cs - 1), 2 ^ cs * (2 ^ rs - 1) + 0,
      2 ^ cs * (2 ^ rs - 1) + 1, 2 ^ cs * 1 + (2 ^ cs - 1)]

/-- The derived members of the geometry of size 0 in a `flushed` build: 32
columns, `rows_` 0 and a row mask of all ones. -/
structure Flushed (g : MapGeometry) : Prop where
  size_eq : g.size_ = 0
  col_size_eq : g.col_size_ = 5
  row_size_eq : g.row_size_ = 2147483652
  cols_eq : g.cols_ = 32
  rows_eq : g.rows_ = 0
  col_mask_eq : g.col_mask_ = 31
  row_mask_eq : g.row_mask_ = 4294967295
  row_shift_eq : g.row_shift_ = 5
  dirs_eq : g.dirs = [1, 33, 32, 31, 4294967295, 4294967264, 4294967265, 63]

/-- The comparison `operator ==` of two geometries: only the sizes are compared. -/
def eq (g rhs : MapGeometry) : Bool := g.size_ == rhs.size_

/-- The result of applying `move_right` to `pos` `n` times in a row. -/
def move_right_times (g : MapGeometry) : Nat → MapPos → Option MapPos
  | 0, pos => some pos
  | n + 1, pos => (move_right_times g n pos).bind g.move_right

/-- The result of applying `move_down` to `pos` `n` times in a row. -/
def move_down_times (g : MapGeometry) : Nat → MapPos → Option MapPos
  | 0, pos => some pos
  | n + 1, pos => (move_down_times g n pos).bind g.move_down

end MapGeometry

/-! ## The iterator over the positions -/

/-- The members of the class `MapGeometry::Iterator`. -/
structure Iterator where
  geom : MapGeometry
  pos : MapPos
deriving DecidableEq, Repr

namespace Iterator

/-- The prefix `operator ++`: the position advances while it is below the tile
count. -/
def inc (it : Iterator) : Iterator :=
  if it.pos < it.geom.tile_count then { it with pos := uint_add it.pos 1 } else it

/-- The postfix `operator ++(int)`: the iterator before the step, and the
iterator after it. -/
def post_inc (it : Iterator) : Iterator × Iterator := (it, it.inc)

/-- The comparison `operator ==`. -/
def eq (it rhs : Iterator) : Bool := it.geom.eq rhs.geom && it.pos == rhs.pos

/-- The comparison `operator !=`. -/
def ne (it rhs : Iterator) : Bool := !(it.eq rhs)

/-- The dereference `operator *`. -/
def deref (it : Iterator) : MapPos := it.pos

end Iterator

namespace MapGeometry

/-- The iterator `begin()`. -/
def begin (g : MapGeometry) : Iterator := { geom := g, pos := 0 }

/-- The iterator `end()`. -/
def end_ (g : MapGeometry) : Iterator := { geom := g, pos := g.tile_count }

end MapGeometry

/-! ## The event loop (`src/event_loop.cc`)

The class is declared in `event_loop.h`; the member functions below use its two
lists `event_handlers` and `removed` through `push_back`, `remove`, `clear`,
`empty` and iteration, the operations of `std::list`.  A handler is a pointer;
what `handle_event` of a handler returns for the event at hand is a parameter. -/

/-- A handler, identified by its address. -/
abbrev Handler := Nat

/-- The two lists of an `EventLoop`. -/
structure EventLoop where
  event_handlers : List Handler
  removed : List Handler
deriving DecidableEq, Repr

namespace EventLoop

/-- The constructor `EventLoop()`: both lists are empty. -/
def ctor : EventLoop := { event_handlers := [], removed := [] }

/-- The function `add_handler`: `event_handlers.push_back(handler)`. -/
def add_handler (l : EventLoop) (handler : Handler) : EventLoop :=
  { l with event_handlers := l.event_handlers ++ [handler] }

/-- The function `del_handler`: `event_handlers.remove(handler)` erases every
entry equal to `handler`, then `removed.push_back(handler)`. -/
def del_handler (l : EventLoop) (handler : Handler) : EventLoop :=
  { event_handlers := l.event_handlers.filter (fun h => h != handler)
    removed := l.removed ++ [handler] }

/-- One turn of the loop of `notify_handlers`: a handler that is not in `removed`
is called, its answer is or-ed into the result and the call is recorded. -/
def notify_step (removed : List Handler) (handle_event : Handler → Bool)
    (acc : Bool × List Handler) (handler : Handler) : Bool × List Handler :=
  if removed.contains handler then acc
  else (acc.1 || handle_event handler, acc.2 ++ [handler])

/-- The function `notify_handlers`, for handlers that leave the two lists alone
while they are called.  The result is the returned flag, the handlers on which
`handle_event` was called, in the order of the calls, and the lists afterwards. -/
def notify_handlers (l : EventLoop) (handle_event : Handler → Bool) :
    Bool × List Handler × EventLoop :=
  if l.event_handlers.isEmpty then (false, [], l)
  else
    let handlers := l.event_handlers
    let out := handlers.foldl (notify_step l.removed handle_event) (false, [])
    (out.1, out.2, { l with removed := [] })

end EventLoop

/-! ## Machine arithmetic lemmas -/

theorem to_unsigned_natCast (n : Nat) : to_unsigned (n : Int) = n % 4294967296 := by
  unfold to_unsigned; omega

theorem to_unsigned_lt (x : Int) : to_unsigned x < 4294967296 := by
  unfold to_unsigned; omega

theorem to_unsigned_cast (x : Int) : ((to_unsigned x : Nat) : Int) = x % 4294967296 := by
  unfold to_unsigned; omega

theorem to_int_of_small (x : Int) (h0 : -2147483648 ≤ x) (h1 : x < 2147483648) :
    to_int x = x := by
  unfold to_int; omega

theorem to_unsigned_to_int (x : Int) : to_unsigned (to_int x) = to_unsigned x := by
  unfold to_unsigned to_int; omega

theorem to_int_eq_add_mul (x : Int) : ∃ k : Int, to_int x = x + k * 4294967296 := by
  refine ⟨-((x + 2147483648) / 4294967296), ?_⟩
  unfold to_int; omega

theorem or_mod_two_pow (a b n : Nat) : (a ||| b) % 2 ^ n = a % 2 ^ n ||| b % 2 ^ n := by
  apply Nat.eq_of_testBit_eq
  intro i
  simp only [Nat.testBit_mod_two_pow, Nat.testBit_or]
  cases decide (i < n) <;> simp

/-! ## The shape of a constructed geometry -/

namespace MapGeometry

/-- The constructor returns a geometry for every size up to 20. -/
theorem ctor_isSome (sh : Shifter) (size : Nat) (h : size ≤ 20) :
    (ctor sh size).isSome = true := by
  unfold ctor
  rw [if_pos h]
  rfl

/-- The constructor fails exactly for the sizes above 20, in every build. -/
theorem ctor_eq_none_iff (sh : Shifter) (size : Nat) : ctor sh size = none ↔ 20 < size := by
  unfold ctor
  constructor
  · intro h
    by_contra hn
    rw [if_pos (by omega)] at h
    exact absurd h (by simp)
  · intro h
    rw [if_neg (by omega)]

/-- Every geometry the constructor returns from a size of 1 to 20 has the shape
`Shaped`, in every build. -/
theorem ctor_shaped (sh : Shifter) (size : Nat) (g : MapGeometry) (h : ctor sh size = some g)
    (h1 : 1 ≤ size) : ∃ cs rs, Shaped g cs rs := by
  unfold ctor at h
  split at h
  · next hs =>
    refine ⟨5 + size / 2, 5 + (size - 1) / 2, ?_⟩
    have hg := (Option.some.inj h).symm
    subst hg
    interval_cases size <;> cases sh <;> constructor <;> decide
  · exact absurd h (by simp)

/-- The geometry of size 0 in a `masked` build has the shape `Shaped`, with 32
columns and 16 rows. -/
theorem ctor_zero_masked (g : MapGeometry) (h : ctor Shifter.masked 0 = some g) :
    Shaped g 5 4 := by
  have hg := (Option.some.inj h).symm
  subst hg
  constructor <;> decide

/-- The geometry of size 0 in a `flushed` build. -/
theorem ctor_zero_flushed (g : MapGeometry) (h : ctor Shifter.flushed 0 = some g) :
    Flushed g := by
  have hg := (Option.some.inj h).symm
  subst hg
  constructor <;> decide

/-- The members the constructor sets from the size, in `unsigned int` arithmetic. -/
theorem ctor_sizes (sh : Shifter) (size : Nat) (g : MapGeometry) (h : ctor sh size = some g) :
    size ≤ 20 ∧ g.size_ = size ∧ g.col_size_ = 5 + size / 2
      ∧ g.row_size_ = 5 + (size + 4294967295) % 4294967296 / 2
      ∧ g.row_shift_ = g.col_size_ := by
  unfold ctor at h
  split at h
  · next hs =>
    have hg := (Option.some.inj h).symm
    subst hg
    refine ⟨hs, rfl, ?_, ?_, rfl⟩
    · show uint_add 5 (size / 2) = 5 + size / 2
      unfold uint_add
      omega
    · show uint_add 5 (uint_sub size 1 / 2) = 5 + (size + 4294967295) % 4294967296 / 2
      unfold uint_add uint_sub
      omega
  · exact absurd h (by simp)

/-- The two kinds of geometry the constructor returns: one of the shape `Shaped`
(every size from 1 to 20, and size 0 in a `masked` build), or the geometry
`Flushed` of size 0 in a `flushed` build. -/
theorem ctor_cases (sh : Shifter) (size : Nat) (g : MapGeometry) (h : ctor sh size = some g) :
    (∃ cs rs, Shaped g cs rs) ∨ Flushed g := by
  by_cases h0 : size = 0
  · subst h0
    cases sh
    · exact Or.inl ⟨5, 4, ctor_zero_masked g h⟩
    · exact Or.inr (ctor_zero_flushed g h)
  · exact Or.inl (ctor_shaped sh size g h (by omega))

end MapGeometry

/-! ## Field arithmetic of the packed position -/

namespace MapGeometry

theorem two_pow_bits {cs rs : Nat} (h : cs + rs ≤ 31) :
    2 ^ cs * 2 ^ rs * 2 ^ (32 - cs - rs) = 4294967296 := by
  rw [← Nat.pow_add, ← Nat.pow_add]
  have : cs + rs + (32 - cs - rs) = 32 := by omega
  rw [this]

theorem two_pow_tiles_le {cs rs : Nat} (h : cs + rs ≤ 31) : 2 ^ cs * 2 ^ rs ≤ 2147483648 := by
  rw [← Nat.pow_add]
  calc 2 ^ (cs + rs) ≤ 2 ^ 31 := Nat.pow_le_pow_right (by decide) h
    _ = 2147483648 := by norm_num

theorem cols_le {cs rs : Nat} (h : cs + rs ≤ 31) : 2 ^ cs ≤ 2147483648 :=
  le_trans (Nat.le_mul_of_pos_right _ (Nat.two_pow_pos rs)) (two_pow_tiles_le h)

theorem rows_le {cs rs : Nat} (h : cs + rs ≤ 31) : 2 ^ rs ≤ 2147483648 :=
  le_trans (Nat.le_mul_of_pos_left _ (Nat.two_pow_pos cs)) (two_pow_tiles_le h)

theorem cols_dvd {cs rs : Nat} (h : cs + rs ≤ 31) :
    ((2 ^ cs : Nat) : Int) ∣ 4294967296 := by
  refine ⟨((2 ^ rs * 2 ^ (32 - cs - rs) : Nat) : Int), ?_⟩
  rw [← Int.natCast_mul, ← Nat.mul_assoc, two_pow_bits h]
  rfl

theorem rows_dvd {cs rs : Nat} (h : cs + rs ≤ 31) :
    ((2 ^ rs : Nat) : Int) ∣ 4294967296 := by
  refine ⟨((2 ^ cs * 2 ^ (32 - cs - rs) : Nat) : Int), ?_⟩
  rw [← Int.natCast_mul, ← Nat.mul_assoc, Nat.mul_comm (2 ^ rs), two_pow_bits h]
  rfl

/-- The value of `x & mask` read back as an `int`, for a mask `2^k - 1`. -/
theorem mask_int (x : Int) (k : Nat) (hk : ((2 ^ k : Nat) : Int) ∣ 4294967296)
    (hle : 2 ^ k ≤ 2147483648) :
    to_int ((to_unsigned x &&& (2 ^ k - 1) : Nat) : Int) = x % ((2 ^ k : Nat) : Int) := by
  rw [Nat.and_pow_two_sub_one_eq_mod]
  have hlt : to_unsigned x % 2 ^ k < 2 ^ k := Nat.mod_lt _ (Nat.two_pow_pos k)
  rw [to_int_of_small _ (by omega) (by omega)]
  rw [Int.natCast_mod, to_unsigned_cast]
  exact Int.emod_emod_of_dvd _ hk

theorem pos_col_int {g : MapGeometry} {cs rs : Nat} (hg : Shaped g cs rs) (x : Int) :
    g.pos_col x = x % ((2 ^ cs : Nat) : Int) := by
  unfold pos_col
  rw [hg.col_mask_eq]
  exact mask_int x cs (cols_dvd hg.bits) (cols_le hg.bits)

theorem pos_row_int {g : MapGeometry} {cs rs : Nat} (hg : Shaped g cs rs) (x : Int) :
    g.pos_row x = x / ((2 ^ cs : Nat) : Int) % ((2 ^ rs : Nat) : Int) := by
  unfold pos_row int_shr
  rw [hg.row_mask_eq, hg.row_shift_eq, Int.shiftRight_eq_div_pow]
  exact mask_int _ rs (rows_dvd hg.bits) (rows_le hg.bits)


theorem to_int_emod (x : Int) (m : Int) (hm : m ∣ 4294967296) : to_int x % m = x % m := by
  rw [← Int.emod_emod_of_dvd (to_int x) hm, ← Int.emod_emod_of_dvd x hm]
  have : to_int x % 4294967296 = x % 4294967296 := by unfold to_int; omega
  rw [this]

theorem to_int_ediv_emod {cs rs : Nat} (h : cs + rs ≤ 31) (x : Int) :
    to_int x / ((2 ^ cs : Nat) : Int) % ((2 ^ rs : Nat) : Int)
      = x / ((2 ^ cs : Nat) : Int) % ((2 ^ rs : Nat) : Int) := by
  obtain ⟨k, hk⟩ := to_int_eq_add_mul x
  have hb : (4294967296 : Int)
      = ((2 ^ (32 - cs - rs) : Nat) : Int) * ((2 ^ rs : Nat) : Int) * ((2 ^ cs : Nat) : Int) := by
    rw [← Int.natCast_mul, ← Int.natCast_mul, Nat.mul_comm, Nat.mul_comm (2 ^ (32 - cs - rs)),
      ← Nat.mul_assoc, two_pow_bits h]
    rfl
  have hC : ((2 ^ cs : Nat) : Int) ≠ 0 := by
    have := Nat.two_pow_pos cs
    omega
  rw [hk, hb, ← Int.mul_assoc, ← Int.mul_assoc, Int.add_mul_ediv_right _ _ hC,
    Int.add_mul_emod_self]

theorem pos_col_nat {g : MapGeometry} {cs rs : Nat} (hg : Shaped g cs rs) (p : Nat) :
    g.pos_col (to_int p) = ((p % 2 ^ cs : Nat) : Int) := by
  rw [pos_col_int hg, to_int_emod _ _ (cols_dvd hg.bits), Int.natCast_mod]

theorem pos_row_nat {g : MapGeometry} {cs rs : Nat} (hg : Shaped g cs rs) (p : Nat) :
    g.pos_row (to_int p) = ((p / 2 ^ cs % 2 ^ rs : Nat) : Int) := by
  rw [pos_row_int hg, to_int_ediv_emod hg.bits, Int.natCast_mod, Int.natCast_div]

/-- The packed value as a bitwise or of the two converted operands, for a row
shift `cs`. -/
theorem pos_bits_of_shift {g : MapGeometry} {cs : Nat} (hsh : g.row_shift_ = cs) (x y : Int) :
    g.pos x y = to_unsigned (y * 2 ^ cs) ||| to_unsigned x := by
  unfold pos int_or int_shl
  rw [hsh, to_unsigned_to_int, to_unsigned_to_int, to_unsigned_natCast]
  apply Nat.mod_eq_of_lt
  have h1 := to_unsigned_lt (y * 2 ^ cs)
  have h2 := to_unsigned_lt x
  exact @Nat.or_lt_two_pow _ _ 32 h1 h2

/-- The packed value as a bitwise or of the two converted operands. -/
theorem pos_bits {g : MapGeometry} {cs rs : Nat} (hg : Shaped g cs rs) (x y : Int) :
    g.pos x y = to_unsigned (y * 2 ^ cs) ||| to_unsigned x :=
  pos_bits_of_shift hg.row_shift_eq x y


theorem shifted_row_bits {cs : Nat} (hcs : cs ≤ 32) (y : Int) :
    to_unsigned (y * 2 ^ cs) = 2 ^ cs * (y % ((2 ^ (32 - cs) : Nat) : Int)).toNat := by
  have hpos : (0 : Int) < ((2 ^ (32 - cs) : Nat) : Int) := by
    have := Nat.two_pow_pos (32 - cs)
    omega
  have hC : (0 : Int) < ((2 ^ cs : Nat) : Int) := by
    have := Nat.two_pow_pos cs
    omega
  have h32 : (4294967296 : Int) = ((2 ^ cs : Nat) : Int) * ((2 ^ (32 - cs) : Nat) : Int) := by
    rw [← Int.natCast_mul, ← Nat.pow_add]
    have : cs + (32 - cs) = 32 := by omega
    rw [this]
    rfl
  have hcast : (2 : Int) ^ cs = ((2 ^ cs : Nat) : Int) := by push_cast; rfl
  apply Int.ofNat_inj.mp
  rw [to_unsigned_cast, Int.natCast_mul, Int.toNat_of_nonneg (Int.emod_nonneg _ (ne_of_gt hpos)),
    hcast, h32, Int.mul_comm y, Int.mul_emod_mul_of_pos _ _ hC]

/-- Packing a column below `2^cs`, for a row shift `cs` of at most 31. -/
theorem pos_of_col_lt_of_shift {g : MapGeometry} {cs : Nat} (hsh : g.row_shift_ = cs)
    (hcs : cs ≤ 31) (x y : Int) (hx0 : 0 ≤ x) (hx : x < ((2 ^ cs : Nat) : Int)) :
    g.pos x y = 2 ^ cs * (y % ((2 ^ (32 - cs) : Nat) : Int)).toNat + x.toNat := by
  have hC : 2 ^ cs ≤ 2147483648 := by
    calc 2 ^ cs ≤ 2 ^ 31 := Nat.pow_le_pow_right (by decide) hcs
      _ = 2147483648 := by norm_num
  have hxu : to_unsigned x = x.toNat := by unfold to_unsigned; omega
  rw [pos_bits_of_shift hsh, shifted_row_bits (by omega), hxu]
  exact (Nat.mul_add_lt_is_or (by omega) _).symm

theorem pos_of_col_lt {g : MapGeometry} {cs rs : Nat} (hg : Shaped g cs rs) (x y : Int)
    (hx0 : 0 ≤ x) (hx : x < ((2 ^ cs : Nat) : Int)) :
    g.pos x y = 2 ^ cs * (y % ((2 ^ (32 - cs) : Nat) : Int)).toNat + x.toNat :=
  pos_of_col_lt_of_shift hg.row_shift_eq (by have := hg.bits; omega) x y hx0 hx

/-- Packing an in-range column and row. -/
theorem pos_nat {g : MapGeometry} {cs rs : Nat} (hg : Shaped g cs rs) (c r : Nat)
    (hc : c < 2 ^ cs) (hr : r < 2 ^ rs) : g.pos c r = 2 ^ cs * r + c := by
  rw [pos_of_col_lt hg _ _ (by omega) (by omega)]
  have hle : 2 ^ rs ≤ 2 ^ (32 - cs) := Nat.pow_le_pow_right (by decide) (by have := hg.bits; omega)
  have : (r : Int) % ((2 ^ (32 - cs) : Nat) : Int) = r := Int.emod_eq_of_lt (by omega) (by omega)
  rw [this]
  simp

theorem pos_col_pos {g : MapGeometry} {cs rs : Nat} (hg : Shaped g cs rs) (x y : Int) :
    g.pos_col (to_int (g.pos x y)) = x % ((2 ^ cs : Nat) : Int) := by
  rw [pos_col_nat hg, pos_bits hg, or_mod_two_pow,
    shifted_row_bits (by have := hg.bits; omega), Nat.mul_mod_right, Nat.zero_or,
    Int.natCast_mod, to_unsigned_cast]
  exact Int.emod_emod_of_dvd _ (cols_dvd hg.bits)

theorem pos_row_pos {g : MapGeometry} {cs rs : Nat} (hg : Shaped g cs rs) (x y : Int)
    (hx0 : 0 ≤ x) (hx : x < ((2 ^ cs : Nat) : Int)) :
    g.pos_row (to_int (g.pos x y)) = y % ((2 ^ rs : Nat) : Int) := by
  have hpos : (0 : Int) < ((2 ^ (32 - cs) : Nat) : Int) := by
    have := Nat.two_pow_pos (32 - cs)
    omega
  rw [pos_row_nat hg, pos_of_col_lt hg x y hx0 hx, Nat.mul_add_div (Nat.two_pow_pos cs),
    Nat.div_eq_of_lt (by omega), Nat.add_zero, Int.natCast_mod,
    Int.toNat_of_nonneg (Int.emod_nonneg _ (ne_of_gt hpos))]
  apply Int.emod_emod_of_dvd
  refine ⟨((2 ^ (32 - cs - rs) : Nat) : Int), ?_⟩
  rw [← Int.natCast_mul, ← Nat.pow_add]
  have : rs + (32 - cs - rs) = 32 - cs := by have := hg.bits; omega
  rw [this]


/-- The masked sum of two extracted fields, as computed inside `pos_add`. -/
theorem masked_sum (u v k : Nat) (hk : ((2 ^ k : Nat) : Int) ∣ 4294967296)
    (hle : 2 ^ k ≤ 2147483648) :
    to_int ((to_unsigned (int_add (u : Int) (v : Int)) &&& (2 ^ k - 1) : Nat) : Int)
      = (((u + v) % 2 ^ k : Nat) : Int) := by
  rw [mask_int _ k hk hle]
  unfold int_add
  rw [to_int_emod _ _ hk, Int.natCast_mod, Int.natCast_add]

/-- The value of `pos_add`: the two fields are added separately, each modulo its
own range, and packed again. -/
theorem pos_add_eq {g : MapGeometry} {cs rs : Nat} (hg : Shaped g cs rs) (a b : Nat) :
    g.pos_add a b
      = 2 ^ cs * ((a / 2 ^ cs % 2 ^ rs + b / 2 ^ cs % 2 ^ rs) % 2 ^ rs)
        + (a % 2 ^ cs + b % 2 ^ cs) % 2 ^ cs := by
  unfold pos_add
  rw [pos_col_nat hg, pos_col_nat hg, pos_row_nat hg, pos_row_nat hg, hg.col_mask_eq,
    hg.row_mask_eq, masked_sum _ _ cs (cols_dvd hg.bits) (cols_le hg.bits),
    masked_sum _ _ rs (rows_dvd hg.bits) (rows_le hg.bits)]
  exact pos_nat hg _ _ (Nat.mod_lt _ (Nat.two_pow_pos cs)) (Nat.mod_lt _ (Nat.two_pow_pos rs))

theorem tile_count_eq {g : MapGeometry} {cs rs : Nat} (hg : Shaped g cs rs) :
    g.tile_count = 2 ^ cs * 2 ^ rs := by
  unfold tile_count uint_mul
  rw [hg.cols_eq, hg.rows_eq]
  exact Nat.mod_eq_of_lt (by have := two_pow_tiles_le hg.bits; omega)

/-- A packed pair of in-range fields is below the tile count. -/
theorem pack_lt {C R c r : Nat} (hc : c < C) (hr : r < R) : C * r + c < C * R := by
  calc C * r + c < C * r + C := by omega
    _ = C * (r + 1) := by ring
    _ ≤ C * R := Nat.mul_le_mul_left _ hr

theorem pack_mod {C c : Nat} (r : Nat) (hc : c < C) : (C * r + c) % C = c := by
  rw [Nat.mul_add_mod]
  exact Nat.mod_eq_of_lt hc

theorem pack_div {C c : Nat} (r : Nat) (hc : c < C) : (C * r + c) / C = r := by
  rw [Nat.mul_add_div (by omega), Nat.div_eq_of_lt hc, Nat.add_zero]

theorem pos_add_lt {g : MapGeometry} {cs rs : Nat} (hg : Shaped g cs rs) (a b : Nat) :
    g.pos_add a b < g.tile_count := by
  rw [pos_add_eq hg, tile_count_eq hg]
  exact pack_lt (Nat.mod_lt _ (Nat.two_pow_pos cs)) (Nat.mod_lt _ (Nat.two_pow_pos rs))

theorem pos_add_mod {g : MapGeometry} {cs rs : Nat} (hg : Shaped g cs rs) (a b : Nat) :
    g.pos_add a b % 2 ^ cs = (a % 2 ^ cs + b % 2 ^ cs) % 2 ^ cs := by
  rw [pos_add_eq hg]
  exact pack_mod _ (Nat.mod_lt _ (Nat.two_pow_pos cs))

theorem pos_add_div {g : MapGeometry} {cs rs : Nat} (hg : Shaped g cs rs) (a b : Nat) :
    g.pos_add a b / 2 ^ cs % 2 ^ rs = (a / 2 ^ cs % 2 ^ rs + b / 2 ^ cs % 2 ^ rs) % 2 ^ rs := by
  rw [pos_add_eq hg, pack_div _ (Nat.mod_lt _ (Nat.two_pow_pos cs)), Nat.mod_mod]

/-! ## Movement along the direction offsets -/

/-- The offset the table holds for each of the eight directions, as a packed
(column step, row step) pair; any other index is outside the array. -/
theorem dirs_at_eq {g : MapGeometry} {cs rs : Nat} (hg : Shaped g cs rs) :
    g.dirs_at DirectionRight = some (2 ^ cs * 0 + 1)
      ∧ g.dirs_at DirectionDownRight = some (2 ^ cs * 1 + 1)
      ∧ g.dirs_at DirectionDown = some (2 ^ cs * 1 + 0)
      ∧ g.dirs_at DirectionLeft = some (2 ^ cs * 0 + (2 ^ cs - 1))
      ∧ g.dirs_at DirectionUpLeft = some (2 ^ cs * (2 ^ rs - 1) + (2 ^ cs - 1))
      ∧ g.dirs_at DirectionUp = some (2 ^ cs * (2 ^ rs - 1) + 0)
      ∧ g.dirs_at DirectionUpRight = some (2 ^ cs * (2 ^ rs - 1) + 1)
      ∧ g.dirs_at DirectionDownLeft = some (2 ^ cs * 1 + (2 ^ cs - 1)) := by
  unfold dirs_at
  rw [hg.dirs_eq]
  exact ⟨rfl, rfl, rfl, rfl, rfl, rfl, rfl, rfl⟩

theorem one_lt_cols {g : MapGeometry} {cs rs : Nat} (hg : Shaped g cs rs) : 1 < 2 ^ cs :=
  Nat.one_lt_two_pow (by have := hg.cs_pos; omega)

theorem one_lt_rows {g : MapGeometry} {cs rs : Nat} (hg : Shaped g cs rs) : 1 < 2 ^ rs :=
  Nat.one_lt_two_pow (by have := hg.rs_pos; omega)

/-- Adding a packed offset `(c, r)` to a position. -/
theorem pos_add_pack {g : MapGeometry} {cs rs : Nat} (hg : Shaped g cs rs) (p c r : Nat)
    (hc : c < 2 ^ cs) (hr : r < 2 ^ rs) :
    g.pos_add p (2 ^ cs * r + c)
      = 2 ^ cs * ((p / 2 ^ cs % 2 ^ rs + r) % 2 ^ rs) + (p % 2 ^ cs + c) % 2 ^ cs := by
  rw [pos_add_eq hg, pack_mod _ hc, pack_div _ hc, Nat.mod_eq_of_lt hr]

/-- An in-range position is the packing of its column and row. -/
theorem unpack {g : MapGeometry} {cs rs : Nat} (hg : Shaped g cs rs) (p : Nat)
    (hp : p < g.tile_count) : 2 ^ cs * (p / 2 ^ cs % 2 ^ rs) + p % 2 ^ cs = p := by
  rw [tile_count_eq hg] at hp
  have hlt : p / 2 ^ cs < 2 ^ rs := Nat.div_lt_of_lt_mul hp
  rw [Nat.mod_eq_of_lt hlt]
  exact Nat.div_add_mod p (2 ^ cs)

/-- Two steps whose sum is a whole turn of the field cancel. -/
theorem wrap_cancel (m x u v : Nat) (hx : x < m) (huv : u + v = m ∨ u + v = 0) :
    ((x + u) % m + v) % m = x := by
  rw [Nat.mod_add_mod, Nat.add_assoc]
  rcases huv with h | h
  · rw [h, Nat.add_mod_right]
    exact Nat.mod_eq_of_lt hx
  · rw [h, Nat.add_zero]
    exact Nat.mod_eq_of_lt hx

/-- Reduced sums associate. -/
theorem wrap_assoc (m x y z : Nat) :
    ((x % m + y % m) % m + z % m) % m = (x % m + (y % m + z % m) % m) % m := by
  rw [Nat.mod_add_mod (x % m + y % m) m (z % m), Nat.add_mod_mod (x % m) (y % m + z % m) m,
    Nat.add_assoc]

/-- Adding an offset and then its opposite returns to the position. -/
theorem pos_add_round_trip {g : MapGeometry} {cs rs : Nat} (hg : Shaped g cs rs) (p : Nat)
    (hp : p < g.tile_count) (c1 r1 c2 r2 : Nat) (hc1 : c1 < 2 ^ cs) (hr1 : r1 < 2 ^ rs)
    (hc2 : c2 < 2 ^ cs) (hr2 : r2 < 2 ^ rs) (hc : c1 + c2 = 2 ^ cs ∨ c1 + c2 = 0)
    (hr : r1 + r2 = 2 ^ rs ∨ r1 + r2 = 0) :
    g.pos_add (g.pos_add p (2 ^ cs * r1 + c1)) (2 ^ cs * r2 + c2) = p := by
  have hC := Nat.two_pow_pos cs
  have hR := Nat.two_pow_pos rs
  rw [pos_add_pack hg _ c2 r2 hc2 hr2, pos_add_pack hg p c1 r1 hc1 hr1,
    pack_mod _ (Nat.mod_lt _ hC), pack_div _ (Nat.mod_lt _ hC), Nat.mod_mod,
    wrap_cancel _ _ c1 c2 (Nat.mod_lt _ hC) hc, wrap_cancel _ _ r1 r2 (Nat.mod_lt _ hR) hr]
  exact unpack hg p hp

theorem move_of_dirs_at {g : MapGeometry} {d : Direction} {off : MapPos} (p : MapPos)
    (h : g.dirs_at d = some off) : g.move p d = some (g.pos_add p off) := by
  unfold move
  rw [h]
  rfl

/-- A move followed by the move of an opposite offset. -/
theorem move_round_trip {g : MapGeometry} {cs rs : Nat} (hg : Shaped g cs rs) (p : Nat)
    (hp : p < g.tile_count) (d e : Direction) (c1 r1 c2 r2 : Nat)
    (hd : g.dirs_at d = some (2 ^ cs * r1 + c1)) (he : g.dirs_at e = some (2 ^ cs * r2 + c2))
    (hc1 : c1 < 2 ^ cs) (hr1 : r1 < 2 ^ rs) (hc2 : c2 < 2 ^ cs) (hr2 : r2 < 2 ^ rs)
    (hc : c1 + c2 = 2 ^ cs ∨ c1 + c2 = 0) (hr : r1 + r2 = 2 ^ rs ∨ r1 + r2 = 0) :
    (g.move p d).bind (fun q => g.move q e) = some p := by
  rw [move_of_dirs_at p hd, Option.some_bind, move_of_dirs_at _ he,
    pos_add_round_trip hg p hp c1 r1 c2 r2 hc1 hr1 hc2 hr2 hc hr]

/-- A field advanced by an offset `c` that stands for the step `dx`: either
`c = dx` or `c = dx + m`. -/
theorem field_step (m x c : Nat) (dx : Int) (h : (c : Int) = dx ∨ (c : Int) = dx + (m : Int)) :
    (((x + c) % m : Nat) : Int) = ((x : Int) + dx) % (m : Int) := by
  rw [Int.natCast_mod, Int.natCast_add]
  rcases h with h | h
  · rw [h]
  · rw [h, ← Int.add_assoc, Int.add_emod_self]

/-- The column and row after adding the packed offset `(c, r)` that stands for
the step `(dx, dy)`. -/
theorem pos_add_step {g : MapGeometry} {cs rs : Nat} (hg : Shaped g cs rs) (p c r : Nat)
    (dx dy : Int) (hc : c < 2 ^ cs) (hr : r < 2 ^ rs)
    (hx : (c : Int) = dx ∨ (c : Int) = dx + ((2 ^ cs : Nat) : Int))
    (hy : (r : Int) = dy ∨ (r : Int) = dy + ((2 ^ rs : Nat) : Int)) :
    g.pos_col (to_int (g.pos_add p (2 ^ cs * r + c)))
        = (g.pos_col (to_int p) + dx) % (g.cols : Int)
      ∧ g.pos_row (to_int (g.pos_add p (2 ^ cs * r + c)))
        = (g.pos_row (to_int p) + dy) % (g.rows : Int) := by
  have hC := Nat.two_pow_pos cs
  have hR := Nat.two_pow_pos rs
  unfold cols rows
  rw [pos_col_nat hg, pos_col_nat hg, pos_row_nat hg, pos_row_nat hg, hg.cols_eq, hg.rows_eq,
    pos_add_pack hg p c r hc hr, pack_mod _ (Nat.mod_lt _ hC), pack_div _ (Nat.mod_lt _ hC),
    Nat.mod_mod]
  exact ⟨field_step _ _ c dx hx, field_step _ _ r dy hy⟩

end MapGeometry

/-! ## Rotation of directions -/

/-- The truncated remainder by 6 in terms of the floor remainder. -/
theorem int_rem_six (x : Int) :
    int_rem x 6 = if 0 ≤ x then x % 6 else -((-x) % 6) := by
  unfold int_rem
  split
  · next h => exact Int.tmod_eq_emod h (by decide)
  · next h =>
    have hq : x.tdiv 6 = -((-x) / 6) := by
      rw [← Int.tdiv_eq_ediv (by omega) (by decide), Int.neg_tdiv, Int.neg_neg]
    rw [Int.tmod_def, hq]
    omega

/-- The result of `turn_direction` is a standard direction. -/
theorem turn_direction_range (d times : Int) :
    0 ≤ turn_direction d times ∧ turn_direction d times < 6 := by
  unfold turn_direction Direction
  simp only [int_rem_six]
  generalize int_add d times = y
  unfold int_add to_int
  split_ifs <;> omega

/-- The value of `turn_direction` when the sum `d + times` does not overflow. -/
theorem turn_direction_eq (d times : Int) (h0 : -2147483648 ≤ d + times)
    (h1 : d + times ≤ 2147483647) : turn_direction d times = (d + times) % 6 := by
  have hs : int_add d times = d + times := by unfold int_add to_int; omega
  unfold turn_direction Direction
  simp only [int_rem_six, hs]
  unfold int_add to_int
  split_ifs <;> omega

/-- The remainder `k % 6` of the `%` operator may replace `k`. -/
theorem turn_direction_rem (d k : Int) (hd0 : 0 ≤ d) (hd6 : d < 6)
    (hk0 : -2147483648 ≤ k) (hk1 : d + k ≤ 2147483647) :
    turn_direction d k = turn_direction d (k % 6)
      ∧ turn_direction d k = turn_direction d (int_rem k 6) := by
  unfold Direction
  rw [turn_direction_eq d k (by omega) hk1, turn_direction_eq d (k % 6) (by omega) (by omega),
    int_rem_six]
  refine ⟨by omega, ?_⟩
  split_ifs
  · rw [turn_direction_eq d (k % 6) (by omega) (by omega)]
    omega
  · rw [turn_direction_eq d (-(-k % 6)) (by omega) (by omega)]
    omega


/-! ## The geometry of size 0 in a flushed build -/

namespace MapGeometry

theorem to_int_to_unsigned (x : Int) : to_int ((to_unsigned x : Nat) : Int) = to_int x := by
  unfold to_int to_unsigned
  omega

theorem flushed_tile_count {g : MapGeometry} (hf : Flushed g) : g.tile_count = 0 := by
  unfold tile_count uint_mul
  rw [hf.cols_eq, hf.rows_eq]

theorem flushed_pos_col {g : MapGeometry} (hf : Flushed g) (p : Nat) :
    g.pos_col (to_int p) = ((p % 32 : Nat) : Int) := by
  unfold pos_col
  rw [hf.col_mask_eq]
  have h := mask_int (to_int p) 5 (by decide) (by decide)
  rw [show (2 : Nat) ^ 5 - 1 = 31 by decide] at h
  rw [h, to_int_emod _ _ (by decide)]
  omega

/-- With a row mask of all ones the row is the position shifted right, read as
an `int`. -/
theorem flushed_pos_row {g : MapGeometry} (hf : Flushed g) (x : Int) :
    g.pos_row x = to_int (x / 32) := by
  unfold pos_row int_shr
  rw [hf.row_mask_eq, hf.row_shift_eq, Int.shiftRight_eq_div_pow,
    show (4294967295 : Nat) = 2 ^ 32 - 1 by decide, Nat.and_pow_two_sub_one_eq_mod,
    Nat.mod_eq_of_lt (to_unsigned_lt _), to_int_to_unsigned]
  rfl

/-- The row of a position, shifted out of an `int`, modulo the 27 bits above
the column field. -/
theorem to_int_shr_emod (a : Nat) :
    to_int (to_int (a : Int) / 32) % 134217728 = ((a / 32 % 134217728 : Nat) : Int) := by
  rw [to_int_emod _ _ (by decide)]
  unfold to_int
  omega

/-- The value of `pos_add` in the geometry of size 0 of a flushed build: the
column field has 5 bits and the row field the remaining 27 bits. -/
theorem flushed_pos_add {g : MapGeometry} (hf : Flushed g) (a b : Nat) :
    g.pos_add a b
      = 2 ^ 5 * ((a / 2 ^ 5 % 2 ^ 27 + b / 2 ^ 5 % 2 ^ 27) % 2 ^ 27)
        + (a % 2 ^ 5 + b % 2 ^ 5) % 2 ^ 5 := by
  unfold pos_add
  rw [flushed_pos_col hf, flushed_pos_col hf, flushed_pos_row hf, flushed_pos_row hf,
    hf.col_mask_eq, hf.row_mask_eq, show (31 : Nat) = 2 ^ 5 - 1 by decide,
    masked_sum _ _ 5 (by decide) (by decide),
    show (4294967295 : Nat) = 2 ^ 32 - 1 by decide, Nat.and_pow_two_sub_one_eq_mod,
    Nat.mod_eq_of_lt (to_unsigned_lt _), to_int_to_unsigned,
    pos_of_col_lt_of_shift hf.row_shift_eq (by decide) _ _ (by omega)
      (by have := Nat.mod_lt (a % 32 + b % 32) (Nat.two_pow_pos 5); omega)]
  have hm : (((2 : Nat) ^ (32 - 5) : Nat) : Int) = 134217728 := by decide
  rw [hm, to_int_emod _ _ (by decide)]
  unfold int_add
  rw [to_int_emod _ _ (by decide), Int.add_emod, to_int_shr_emod, to_int_shr_emod]
  change (_ : Nat) = _
  omega

end MapGeometry
/-! ## Decoding a packed pair, and sums in either kind of geometry -/

namespace MapGeometry

theorem or_div_two_pow (a b n : Nat) : (a ||| b) / 2 ^ n = a / 2 ^ n ||| b / 2 ^ n := by
  rw [← Nat.shiftRight_eq_div_pow, ← Nat.shiftRight_eq_div_pow, ← Nat.shiftRight_eq_div_pow]
  apply Nat.eq_of_testBit_eq
  intro i
  simp only [Nat.testBit_shiftRight, Nat.testBit_or]

/-- A multiple of `2^32` added to the operand leaves the row field as it is. -/
theorem add_mul_ediv_emod {cs rs : Nat} (h : cs + rs ≤ 31) (x k : Int) :
    (x + k * 4294967296) / ((2 ^ cs : Nat) : Int) % ((2 ^ rs : Nat) : Int)
      = x / ((2 ^ cs : Nat) : Int) % ((2 ^ rs : Nat) : Int) := by
  have hb : (4294967296 : Int)
      = ((2 ^ (32 - cs - rs) : Nat) : Int) * ((2 ^ rs : Nat) : Int) * ((2 ^ cs : Nat) : Int) := by
    rw [← Int.natCast_mul, ← Int.natCast_mul, Nat.mul_comm, Nat.mul_comm (2 ^ (32 - cs - rs)),
      ← Nat.mul_assoc, two_pow_bits h]
    rfl
  have hC : ((2 ^ cs : Nat) : Int) ≠ 0 := by
    have := Nat.two_pow_pos cs
    omega
  rw [hb, ← Int.mul_assoc, ← Int.mul_assoc, Int.add_mul_ediv_right _ _ hC,
    Int.add_mul_emod_self]

/-- The row of a packed pair, for any two integers: the row operand and the bits
of the column operand above the column field are or-ed, each reduced modulo the
number of rows. -/
theorem pos_row_pos_or {g : MapGeometry} {cs rs : Nat} (hg : Shaped g cs rs) (x y : Int) :
    g.pos_row (to_int (g.pos x y))
      = (((y % ((2 ^ rs : Nat) : Int)).toNat
          ||| (x / ((2 ^ cs : Nat) : Int) % ((2 ^ rs : Nat) : Int)).toNat : Nat) : Int) := by
  have hC := Nat.two_pow_pos cs
  have hR : ((2 ^ rs : Nat) : Int) ≠ 0 := by
    have := Nat.two_pow_pos rs
    omega
  have hW : ((2 ^ (32 - cs) : Nat) : Int) ≠ 0 := by
    have := Nat.two_pow_pos (32 - cs)
    omega
  have hrow : to_unsigned (y * 2 ^ cs) / 2 ^ cs % 2 ^ rs
      = (y % ((2 ^ rs : Nat) : Int)).toNat := by
    rw [shifted_row_bits (by have := hg.bits; omega), Nat.mul_div_cancel_left _ hC]
    apply Int.ofNat_inj.mp
    rw [Int.natCast_mod, Int.toNat_of_nonneg (Int.emod_nonneg _ hW),
      Int.toNat_of_nonneg (Int.emod_nonneg _ hR)]
    apply Int.emod_emod_of_dvd
    refine ⟨((2 ^ (32 - cs - rs) : Nat) : Int), ?_⟩
    rw [← Int.natCast_mul, ← Nat.pow_add]
    have : rs + (32 - cs - rs) = 32 - cs := by have := hg.bits; omega
    rw [this]
  have hcol : to_unsigned x / 2 ^ cs % 2 ^ rs
      = (x / ((2 ^ cs : Nat) : Int) % ((2 ^ rs : Nat) : Int)).toNat := by
    apply Int.ofNat_inj.mp
    have hx : x % 4294967296 = x + (-(x / 4294967296)) * 4294967296 := by omega
    rw [Int.natCast_mod, Int.natCast_div, to_unsigned_cast,
      Int.toNat_of_nonneg (Int.emod_nonneg _ hR), hx, add_mul_ediv_emod hg.bits]
  rw [pos_row_nat hg, pos_bits hg, or_div_two_pow, or_mod_two_pow, hrow, hcol]

theorem flushed_pos_col_pos {g : MapGeometry} (hf : Flushed g) (x y : Int) :
    g.pos_col (to_int (g.pos x y)) = x % 32 := by
  rw [flushed_pos_col hf, pos_bits_of_shift hf.row_shift_eq,
    show (32 : Nat) = 2 ^ 5 by decide, or_mod_two_pow, shifted_row_bits (by decide),
    Nat.mul_mod_right, Nat.zero_or, Int.natCast_mod, to_unsigned_cast]
  exact Int.emod_emod_of_dvd _ (by decide)

/-- Commutativity and associativity of `pos_add` follow from the field-wise sum,
whatever the two field widths are. -/
theorem comm_assoc_of_sum {g : MapGeometry} {cs rs : Nat}
    (hsum : ∀ a b : Nat, g.pos_add a b
      = 2 ^ cs * ((a / 2 ^ cs % 2 ^ rs + b / 2 ^ cs % 2 ^ rs) % 2 ^ rs)
        + (a % 2 ^ cs + b % 2 ^ cs) % 2 ^ cs) (a b c : Nat) :
    g.pos_add a b = g.pos_add b a
      ∧ g.pos_add (g.pos_add a b) c = g.pos_add a (g.pos_add b c) := by
  have hC := Nat.two_pow_pos cs
  have hmod : ∀ u v : Nat, g.pos_add u v % 2 ^ cs = (u % 2 ^ cs + v % 2 ^ cs) % 2 ^ cs := by
    intro u v
    rw [hsum]
    exact pack_mod _ (Nat.mod_lt _ hC)
  have hdiv : ∀ u v : Nat, g.pos_add u v / 2 ^ cs % 2 ^ rs
      = (u / 2 ^ cs % 2 ^ rs + v / 2 ^ cs % 2 ^ rs) % 2 ^ rs := by
    intro u v
    rw [hsum, pack_div _ (Nat.mod_lt _ hC), Nat.mod_mod]
  constructor
  · rw [hsum, hsum, Nat.add_comm (a % 2 ^ cs), Nat.add_comm (a / 2 ^ cs % 2 ^ rs)]
  · rw [hsum (g.pos_add a b) c, hsum a (g.pos_add b c), hmod, hdiv, hmod, hdiv, wrap_assoc,
      wrap_assoc]

/-- In a geometry of the shape `Shaped` the column of `pos_add(a, b)` is the sum
of the two columns modulo `cols` and its row the sum of the two rows modulo
`rows`: the sizes 1 to 20 in every build, and size 0 in a masked build. -/
theorem pos_add_fieldwise_of_shaped {g : MapGeometry} {cs rs : Nat} (hs : Shaped g cs rs)
    (a b : MapPos) :
    g.pos_col (to_int (g.pos_add a b))
        = (g.pos_col (to_int a) + g.pos_col (to_int b)) % (g.cols : Int)
      ∧ g.pos_row (to_int (g.pos_add a b))
        = (g.pos_row (to_int a) + g.pos_row (to_int b)) % (g.rows : Int) := by
  unfold cols rows
  rw [pos_col_nat hs, pos_col_nat hs, pos_col_nat hs, pos_row_nat hs, pos_row_nat hs,
    pos_row_nat hs, pos_add_mod hs, pos_add_div hs, hs.cols_eq, hs.rows_eq]
  constructor
  · rw [Int.natCast_mod, Int.natCast_add]
  · rw [Int.natCast_mod, Int.natCast_add]

/-- In a geometry of the shape `Shaped` every value of `pos_add`, `move`,
`move_right_n` and `move_down_n` is below the tile count. -/
theorem results_in_range_of_shaped {g : MapGeometry} {cs rs : Nat} (hs : Shaped g cs rs) :
    (∀ a b : MapPos, g.pos_add a b < g.tile_count)
      ∧ (∀ (p : MapPos) (d : Direction), 0 ≤ d → d < 8 →
        ∃ q, g.move p d = some q ∧ q < g.tile_count)
      ∧ (∀ (p : MapPos) (n : Int), ∃ q, g.move_right_n p n = some q ∧ q < g.tile_count)
      ∧ (∀ (p : MapPos) (n : Int), ∃ q, g.move_down_n p n = some q ∧ q < g.tile_count) := by
  obtain ⟨hR, hDR, hD, hL, hUL, hU, hUR, hDL⟩ := dirs_at_eq hs
  refine ⟨pos_add_lt hs, ?_, ?_, ?_⟩
  · intro p d hd0 hd8
    interval_cases d
    · exact ⟨_, move_of_dirs_at p hR, pos_add_lt hs _ _⟩
    · exact ⟨_, move_of_dirs_at p hDR, pos_add_lt hs _ _⟩
    · exact ⟨_, move_of_dirs_at p hD, pos_add_lt hs _ _⟩
    · exact ⟨_, move_of_dirs_at p hL, pos_add_lt hs _ _⟩
    · exact ⟨_, move_of_dirs_at p hUL, pos_add_lt hs _ _⟩
    · exact ⟨_, move_of_dirs_at p hU, pos_add_lt hs _ _⟩
    · exact ⟨_, move_of_dirs_at p hUR, pos_add_lt hs _ _⟩
    · exact ⟨_, move_of_dirs_at p hDL, pos_add_lt hs _ _⟩
  · intro p n
    unfold move_right_n
    rw [hR]
    exact ⟨_, rfl, pos_add_lt hs _ _⟩
  · intro p n
    unfold move_down_n
    rw [hD]
    exact ⟨_, rfl, pos_add_lt hs _ _⟩

end MapGeometry

/-! ## Claims about the position arithmetic -/

namespace MapGeometry

/-- C1, the code at the failing input `size = 0` in a flushed build, where
`1 << row_size_` (a shift by 2147483652) yields 0: `rows()` is 0 and the row
mask is all ones, and for `a = b = 2147483647` the row of `pos_add(a, b)` is -2
while the two rows, 67108863 each, add up to 134217726; the row is no sum modulo
`rows`. -/
theorem pos_add_row_at_size_zero :
    ∃ g, ctor Shifter.flushed 0 = some g ∧ g.rows = 0 ∧ g.row_mask = 4294967295
      ∧ g.pos_add 2147483647 2147483647 = 4294967262
      ∧ g.pos_row (to_int (g.pos_add 2147483647 2147483647)) = -2
      ∧ g.pos_row (to_int 2147483647) = 67108863
      ∧ g.pos_row (to_int 2147483647) + g.pos_row (to_int 2147483647) = 134217726 := by
  refine ⟨_, rfl, ?_⟩
  decide

/-- C2: for every engine the constructor builds, in either build, every
position `p` below the tile count and every standard direction `d` (ordinal 0
to 5), moving in direction `d` and then in `reverse_direction(d)` returns to
`p`. -/
theorem move_reverse_round_trip (sh : Shifter) (size : Nat) (g : MapGeometry)
    (hg : ctor sh size = some g) (p : MapPos) (hp : p < g.tile_count) (d : Direction)
    (hd0 : 0 ≤ d) (hd6 : d < 6) :
    (g.move p d).bind (fun q => g.move q (reverse_direction d)) = some p := by
  rcases ctor_cases sh size g hg with ⟨cs, rs, hs⟩ | hf
  swap
  · rw [flushed_tile_count hf] at hp
    exact absurd hp (Nat.not_lt_zero p)
  obtain ⟨hR, hDR, hD, hL, hUL, hU, -, -⟩ := dirs_at_eq hs
  have hC := one_lt_cols hs
  have hRw := one_lt_rows hs
  have rt := move_round_trip hs p hp
  interval_cases d
  · exact rt 0 (reverse_direction 0) _ _ _ _ hR hL (by omega) (by omega) (by omega) (by omega)
      (by omega) (by omega)
  · exact rt 1 (reverse_direction 1) _ _ _ _ hDR hUL (by omega) (by omega) (by omega)
      (by omega) (by omega) (by omega)
  · exact rt 2 (reverse_direction 2) _ _ _ _ hD hU (by omega) (by omega) (by omega) (by omega)
      (by omega) (by omega)
  · exact rt 3 (reverse_direction 3) _ _ _ _ hL hR (by omega) (by omega) (by omega) (by omega)
      (by omega) (by omega)
  · exact rt 4 (reverse_direction 4) _ _ _ _ hUL hDR (by omega) (by omega) (by omega)
      (by omega) (by omega) (by omega)
  · exact rt 5 (reverse_direction 5) _ _ _ _ hU hD (by omega) (by omega) (by omega) (by omega)
      (by omega) (by omega)

/-- C2 at size 3: from `pos(5, 5) = 325`, a move Down and then Up (the reverse of
Down) returns to 325. -/
theorem move_reverse_round_trip_witness :
    ∃ g, ctor Shifter.masked 3 = some g ∧ g.pos 5 5 = 325
      ∧ reverse_direction DirectionDown = DirectionUp
      ∧ (g.move 325 DirectionDown).bind (fun q => g.move q (reverse_direction DirectionDown))
        = some 325 :=
  ⟨_, rfl, by decide, by decide,
    move_reverse_round_trip Shifter.masked 3 _ rfl 325 (by decide) DirectionDown (by decide)
      (by decide)⟩

/-- C3, the claim as stated fails: at size 3 (64 columns) the column 64 is out
of range and `pos(64, 0) = 64`, whose row is 1 and not `0 mod rows = 0`; equally
the column -1 gives `pos(-1, 0) = 4294967295`, whose row is 63. -/
theorem pos_row_of_wide_column :
    ∃ g, ctor Shifter.masked 3 = some g ∧ g.pos 64 0 = 64
      ∧ g.pos_row (to_int (g.pos 64 0)) = 1
      ∧ g.pos_row (to_int (g.pos 64 0)) ≠ 0 % (g.rows : Int)
      ∧ g.pos_row (to_int (g.pos (-1) 0)) = 63 :=
  ⟨_, rfl, by decide, by decide, by decide, by decide⟩

/-- C3 as amended: for every engine the constructor builds, in either build, and
any integers `c` and `r`, the column of `pos(c, r)` is `c mod cols`.  Whenever
`rows()` is not 0 (every size from 1 to 20, and size 0 in a masked build) the
row of `pos(c, r)` is the bitwise or of `r mod rows` and `(c div cols) mod rows`,
the bits of `c` that lie in the row field; so it is `r mod rows` whenever
`(c div cols) mod rows = 0`, as for every `0 ≤ c < cols`, and at `r = 0` it is
`(c div cols) mod rows`, which makes the condition exact.  The geometry of size
0 in a flushed build, where `rows()` is 0, is left out of the row clause. -/
theorem pos_decode_wrapped (sh : Shifter) (size : Nat) (g : MapGeometry)
    (hg : ctor sh size = some g) (c r : Int) :
    g.pos_col (to_int (g.pos c r)) = c % (g.cols : Int)
      ∧ (0 < g.rows →
        g.pos_row (to_int (g.pos c r))
            = (((r % (g.rows : Int)).toNat ||| (c / (g.cols : Int) % (g.rows : Int)).toNat : Nat)
              : Int)
          ∧ (c / (g.cols : Int) % (g.rows : Int) = 0 →
            g.pos_row (to_int (g.pos c r)) = r % (g.rows : Int))
          ∧ (0 ≤ c → c < (g.cols : Int) → g.pos_row (to_int (g.pos c r)) = r % (g.rows : Int))
          ∧ g.pos_row (to_int (g.pos c 0)) = c / (g.cols : Int) % (g.rows : Int)) := by
  constructor
  · rcases ctor_cases sh size g hg with ⟨cs, rs, hs⟩ | hf
    · unfold cols
      rw [hs.cols_eq]
      exact pos_col_pos hs c r
    · unfold cols
      rw [hf.cols_eq]
      exact flushed_pos_col_pos hf c r
  · intro h1
    rcases ctor_cases sh size g hg with ⟨cs, rs, hs⟩ | hf
    swap
    · unfold rows at h1
      rw [hf.rows_eq] at h1
      exact absurd h1 (Nat.lt_irrefl 0)
    have hR : ((2 ^ rs : Nat) : Int) ≠ 0 := by
      have := Nat.two_pow_pos rs
      omega
    unfold cols rows
    rw [hs.cols_eq, hs.rows_eq]
    refine ⟨pos_row_pos_or hs c r, ?_, fun h0 hc => pos_row_pos hs c r h0 hc, ?_⟩
    · intro hz
      rw [pos_row_pos_or hs, hz, Int.toNat_zero, Nat.or_zero,
        Int.toNat_of_nonneg (Int.emod_nonneg _ hR)]
    · rw [pos_row_pos_or hs, Int.zero_emod, Int.toNat_zero, Nat.zero_or,
        Int.toNat_of_nonneg (Int.emod_nonneg _ hR)]

/-- C3 as amended, at size 3 (64 columns, 64 rows): the column 70 is read back as
`70 mod 64 = 6`; with the column 4096, whose bits lie above the row field, the
row -1 is read back as `-1 mod 64 = 63`; with the column 64 the row 2 is read
back as `2 | 1 = 3`. -/
theorem pos_decode_wrapped_witness :
    ∃ g, ctor Shifter.masked 3 = some g
      ∧ g.pos_col (to_int (g.pos 70 (-1))) = 70 % (g.cols : Int)
      ∧ g.pos_row (to_int (g.pos 4096 (-1))) = (-1) % (g.rows : Int)
      ∧ g.pos_row (to_int (g.pos 64 2))
        = (((2 % (g.rows : Int)).toNat ||| (64 / (g.cols : Int) % (g.rows : Int)).toNat : Nat)
          : Int)
      ∧ (70 : Int) % (g.cols : Int) = 6 ∧ (-1 : Int) % (g.rows : Int) = 63
      ∧ g.pos_row (to_int (g.pos 64 2)) = 3 :=
  ⟨_, rfl, (pos_decode_wrapped Shifter.masked 3 _ rfl 70 (-1)).1,
    ((pos_decode_wrapped Shifter.masked 3 _ rfl 4096 (-1)).2 (by decide)).2.1 (by decide),
    ((pos_decode_wrapped Shifter.masked 3 _ rfl 64 2).2 (by decide)).1,
    by decide, by decide, by decide⟩

/-- C4: for every engine the constructor builds, in either build, `pos` maps the
in-range pairs one-to-one onto the positions below the tile count: for
`0 ≤ c < cols` and
`0 ≤ r < rows` the value `pos(c, r)` is below the tile count and decodes to
`(c, r)`, and every `p` below the tile count has an in-range column and row and
is `pos(pos_col(p), pos_row(p))`. -/
theorem pos_bijection (sh : Shifter) (size : Nat) (g : MapGeometry)
    (hg : ctor sh size = some g) :
    (∀ c r : Int, 0 ≤ c → c < (g.cols : Int) → 0 ≤ r → r < (g.rows : Int) →
        g.pos c r < g.tile_count ∧ g.pos_col (to_int (g.pos c r)) = c
          ∧ g.pos_row (to_int (g.pos c r)) = r)
      ∧ (∀ p : MapPos, p < g.tile_count →
        0 ≤ g.pos_col (to_int p) ∧ g.pos_col (to_int p) < (g.cols : Int)
          ∧ 0 ≤ g.pos_row (to_int p) ∧ g.pos_row (to_int p) < (g.rows : Int)
          ∧ g.pos (g.pos_col (to_int p)) (g.pos_row (to_int p)) = p) := by
  rcases ctor_cases sh size g hg with ⟨cs, rs, hs⟩ | hf
  swap
  · constructor
    · intro c r hc0 hc hr0 hr
      unfold rows at hr
      rw [hf.rows_eq] at hr
      omega
    · intro p hp
      rw [flushed_tile_count hf] at hp
      exact absurd hp (Nat.not_lt_zero p)
  have hC := Nat.two_pow_pos cs
  have hR := Nat.two_pow_pos rs
  unfold cols rows
  rw [hs.cols_eq, hs.rows_eq]
  constructor
  · intro c r hc0 hc hr0 hr
    refine ⟨?_, ?_, ?_⟩
    · have hcn : c = ((c.toNat : Nat) : Int) := by omega
      have hrn : r = ((r.toNat : Nat) : Int) := by omega
      rw [hcn, hrn, pos_nat hs _ _ (by omega) (by omega), tile_count_eq hs]
      exact pack_lt (by omega) (by omega)
    · rw [pos_col_pos hs]
      exact Int.emod_eq_of_lt hc0 hc
    · rw [pos_row_pos hs c r hc0 hc]
      exact Int.emod_eq_of_lt hr0 hr
  · intro p hp
    have hcl : p % 2 ^ cs < 2 ^ cs := Nat.mod_lt _ hC
    have hrl : p / 2 ^ cs % 2 ^ rs < 2 ^ rs := Nat.mod_lt _ hR
    rw [pos_col_nat hs, pos_row_nat hs]
    refine ⟨by omega, by omega, by omega, by omega, ?_⟩
    rw [pos_nat hs _ _ hcl hrl]
    exact unpack hs p hp

/-- C4 at size 3: `pos(5, 5) = 325` is below the tile count 4096 and decodes to
`(5, 5)`, and 325 is the packing of its own column and row. -/
theorem pos_bijection_witness :
    ∃ g, ctor Shifter.masked 3 = some g ∧ g.tile_count = 4096 ∧ g.pos 5 5 = 325
      ∧ (g.pos 5 5 < g.tile_count ∧ g.pos_col (to_int (g.pos 5 5)) = 5
        ∧ g.pos_row (to_int (g.pos 5 5)) = 5)
      ∧ (0 ≤ g.pos_col (to_int (325 : Nat)) ∧ g.pos_col (to_int (325 : Nat)) < (g.cols : Int)
        ∧ 0 ≤ g.pos_row (to_int (325 : Nat)) ∧ g.pos_row (to_int (325 : Nat)) < (g.rows : Int)
        ∧ g.pos (g.pos_col (to_int (325 : Nat))) (g.pos_row (to_int (325 : Nat))) = 325) :=
  ⟨_, rfl, by decide, by decide,
    (pos_bijection Shifter.masked 3 _ rfl).1 5 5 (by decide) (by decide) (by decide) (by decide),
    (pos_bijection Shifter.masked 3 _ rfl).2 325 (by decide)⟩

/-- C5, the code at the failing input `size = 0` in a flushed build: the tile
count is 0, so no position is below it; `pos_add(511, 33)` is 512,
`move(0, DirectionUpLeft)` is 4294967295, the sentinel `bad_map_pos`, and
`move_right_n(0, 1)` and `move_down_n(0, 1)` are 1 and 32. -/
theorem results_at_size_zero :
    ∃ g, ctor Shifter.flushed 0 = some g ∧ g.tile_count = 0
      ∧ g.pos_add 511 33 = 512 ∧ ¬ g.pos_add 511 33 < g.tile_count
      ∧ g.move 0 DirectionUpLeft = some 4294967295
      ∧ g.move 0 DirectionUpLeft = some bad_map_pos
      ∧ g.move_right_n 0 1 = some 1 ∧ g.move_down_n 0 1 = some 32 := by
  refine ⟨_, rfl, ?_⟩
  decide

/-- C6: for every engine the constructor builds, in either build, and every
position `p` below the tile count, `move` changes the column and the row by the
unit step of the direction, modulo `cols` and `rows`: Right (+1, 0), DownRight
(+1, +1), Down (0, +1), Left (-1, 0), UpLeft (-1, -1), Up (0, -1), UpRight
(+1, -1), DownLeft (-1, +1); the offset of Left is `cols - 1` and the offset of
Up is `(rows - 1) << col_size`, both in `unsigned int` arithmetic. -/
theorem move_unit_step (sh : Shifter) (size : Nat) (g : MapGeometry)
    (hg : ctor sh size = some g) :
    (∀ p : MapPos, p < g.tile_count → ∀ (d : Direction) (dx dy : Int),
        (d, dx, dy) ∈ [(DirectionRight, 1, 0), (DirectionDownRight, 1, 1), (DirectionDown, 0, 1),
          (DirectionLeft, -1, 0), (DirectionUpLeft, -1, -1), (DirectionUp, 0, -1),
          (DirectionUpRight, 1, -1), (DirectionDownLeft, -1, 1)] →
        ∃ q, g.move p d = some q
          ∧ g.pos_col (to_int q) = (g.pos_col (to_int p) + dx) % (g.cols : Int)
          ∧ g.pos_row (to_int q) = (g.pos_row (to_int p) + dy) % (g.rows : Int))
      ∧ g.dirs_at DirectionLeft = some (uint_sub g.cols 1)
      ∧ g.dirs_at DirectionUp = some (uint_shl (uint_sub g.rows 1) g.col_size_) := by
  have hcsz : g.row_shift_ = g.col_size_ := (ctor_sizes sh size g hg).2.2.2.2
  rcases ctor_cases sh size g hg with ⟨cs, rs, hs⟩ | hf
  swap
  · refine ⟨?_, ?_, ?_⟩
    · intro p hp
      rw [flushed_tile_count hf] at hp
      exact absurd hp (Nat.not_lt_zero p)
    · unfold dirs_at cols
      rw [hf.dirs_eq, hf.cols_eq]
      decide
    · unfold dirs_at rows
      rw [hf.dirs_eq, hf.rows_eq, hf.col_size_eq]
      decide
  obtain ⟨hR, hDR, hD, hL, hUL, hU, hUR, hDL⟩ := dirs_at_eq hs
  have hC := one_lt_cols hs
  have hRw := one_lt_rows hs
  have hCle := cols_le hs.bits
  have hTle := two_pow_tiles_le hs.bits
  refine ⟨?_, ?_, ?_⟩
  · intro p _ d dx dy hmem
    have st := pos_add_step hs p
    simp only [List.mem_cons, Prod.mk.injEq, List.mem_singleton, List.not_mem_nil,
      or_false] at hmem
    rcases hmem with h | h | h | h | h | h | h | h
    · obtain ⟨rfl, rfl, rfl⟩ := h
      exact ⟨_, move_of_dirs_at p hR, st 1 0 1 0 (by omega) (by omega) (by omega) (by omega)⟩
    · obtain ⟨rfl, rfl, rfl⟩ := h
      exact ⟨_, move_of_dirs_at p hDR, st 1 1 1 1 (by omega) (by omega) (by omega) (by omega)⟩
    · obtain ⟨rfl, rfl, rfl⟩ := h
      exact ⟨_, move_of_dirs_at p hD, st 0 1 0 1 (by omega) (by omega) (by omega) (by omega)⟩
    · obtain ⟨rfl, rfl, rfl⟩ := h
      exact ⟨_, move_of_dirs_at p hL,
        st (2 ^ cs - 1) 0 (-1) 0 (by omega) (by omega) (by omega) (by omega)⟩
    · obtain ⟨rfl, rfl, rfl⟩ := h
      exact ⟨_, move_of_dirs_at p hUL,
        st (2 ^ cs - 1) (2 ^ rs - 1) (-1) (-1) (by omega) (by omega) (by omega) (by omega)⟩
    · obtain ⟨rfl, rfl, rfl⟩ := h
      exact ⟨_, move_of_dirs_at p hU,
        st 0 (2 ^ rs - 1) 0 (-1) (by omega) (by omega) (by omega) (by omega)⟩
    · obtain ⟨rfl, rfl, rfl⟩ := h
      exact ⟨_, move_of_dirs_at p hUR,
        st 1 (2 ^ rs - 1) 1 (-1) (by omega) (by omega) (by omega) (by omega)⟩
    · obtain ⟨rfl, rfl, rfl⟩ := h
      exact ⟨_, move_of_dirs_at p hDL,
        st (2 ^ cs - 1) 1 (-1) 1 (by omega) (by omega) (by omega) (by omega)⟩
  · rw [hL]
    unfold cols uint_sub
    rw [hs.cols_eq, Nat.mul_zero, Nat.zero_add]
    refine congrArg some ?_
    change (_ : Nat) = _
    omega
  · have hcol : g.col_size_ = cs := by rw [← hcsz, hs.row_shift_eq]
    have hsub : uint_sub (2 ^ rs) 1 = 2 ^ rs - 1 := by
      have := rows_le hs.bits
      unfold uint_sub
      omega
    have hlt : 2 ^ cs * (2 ^ rs - 1) < 4294967296 := by
      have : 2 ^ cs * (2 ^ rs - 1) ≤ 2 ^ cs * 2 ^ rs := Nat.mul_le_mul_left _ (Nat.sub_le _ _)
      omega
    rw [hU, hcol]
    unfold rows uint_shl
    rw [hs.rows_eq, hsub, Nat.shiftLeft_eq, Nat.add_zero, Nat.mul_comm (2 ^ rs - 1),
      Nat.mod_eq_of_lt hlt]

/-- C6 at size 3 (64 columns, 64 rows), at position 0: the move Up-Left goes
from (0, 0) to (63, 63), the position 4095; the offsets of Left and Up are 63
and 4032. -/
theorem move_unit_step_witness :
    ∃ g, ctor Shifter.masked 3 = some g ∧ g.move 0 DirectionUpLeft = some 4095
      ∧ (∃ q, g.move 0 DirectionUpLeft = some q
          ∧ g.pos_col (to_int q) = (g.pos_col (to_int (0 : Nat)) + -1) % (g.cols : Int)
          ∧ g.pos_row (to_int q) = (g.pos_row (to_int (0 : Nat)) + -1) % (g.rows : Int))
      ∧ g.dirs_at DirectionLeft = some (uint_sub g.cols 1)
      ∧ g.dirs_at DirectionUp = some (uint_shl (uint_sub g.rows 1) g.col_size_)
      ∧ uint_sub g.cols 1 = 63 ∧ uint_shl (uint_sub g.rows 1) g.col_size_ = 4032 :=
  ⟨_, rfl, by decide,
    (move_unit_step Shifter.masked 3 _ rfl).1 0 (by decide) DirectionUpLeft (-1) (-1) (by simp),
    (move_unit_step Shifter.masked 3 _ rfl).2.1, (move_unit_step Shifter.masked 3 _ rfl).2.2,
    by decide, by decide⟩

/-- C7: for every engine the constructor builds, in either build, `pos_add` is
commutative and associative on all positions. -/
theorem pos_add_comm_assoc (sh : Shifter) (size : Nat) (g : MapGeometry)
    (hg : ctor sh size = some g) (a b c : MapPos) :
    g.pos_add a b = g.pos_add b a
      ∧ g.pos_add (g.pos_add a b) c = g.pos_add a (g.pos_add b c) := by
  rcases ctor_cases sh size g hg with ⟨cs, rs, hs⟩ | hf
  · exact comm_assoc_of_sum (pos_add_eq hs) a b c
  · exact comm_assoc_of_sum (flushed_pos_add hf) a b c

/-- C7 at size 3, on positions whose column sums and row sums wrap, and at size
0 in a flushed build. -/
theorem pos_add_comm_assoc_witness :
    (∃ g, ctor Shifter.masked 3 = some g
      ∧ g.pos_add 4095 130 = g.pos_add 130 4095
      ∧ g.pos_add (g.pos_add 4095 130) 4000 = g.pos_add 4095 (g.pos_add 130 4000))
    ∧ (∃ g, ctor Shifter.flushed 0 = some g
      ∧ g.pos_add 2147483647 33 = g.pos_add 33 2147483647
      ∧ g.pos_add (g.pos_add 2147483647 33) 4294967295
        = g.pos_add 2147483647 (g.pos_add 33 4294967295)) :=
  ⟨⟨_, rfl, pos_add_comm_assoc Shifter.masked 3 _ rfl 4095 130 4000⟩,
    ⟨_, rfl, pos_add_comm_assoc Shifter.flushed 0 _ rfl 2147483647 33 4294967295⟩⟩

end MapGeometry

/-! ## Claims about the direction algebra -/

/-- C8, the claim as stated fails: with `d = DirectionUp` (5) and
`k = 2147483647` the sum `d + k` overflows the `int` and wraps, so that
`turn_direction(d, k)` is `DirectionDown` (2) while `turn_direction(d, k mod 6)`
is `DirectionRight` (0). -/
theorem turn_direction_overflow :
    turn_direction DirectionUp 2147483647 = DirectionDown
      ∧ (2147483647 : Int) % 6 = 1 ∧ int_rem 2147483647 6 = 1
      ∧ turn_direction DirectionUp ((2147483647 : Int) % 6) = DirectionRight
      ∧ turn_direction DirectionUp 2147483647
        ≠ turn_direction DirectionUp ((2147483647 : Int) % 6) := by
  decide

/-- C8 as amended: for every standard direction `d` and every int `k` with
`d + k ≤ 2147483647` (the sum does not overflow), `turn_direction(d, k)` equals
`turn_direction(d, k mod 6)`, for the floor remainder and for the remainder of
the `%` operator alike; and `turn_direction(d, 0) = d`. -/
theorem turn_direction_mod_six (d : Direction) (k : Int) (hd0 : 0 ≤ d) (hd6 : d < 6)
    (hk0 : -2147483648 ≤ k) (hk1 : d + k ≤ 2147483647) :
    turn_direction d k = turn_direction d (k % 6)
      ∧ turn_direction d k = turn_direction d (int_rem k 6)
      ∧ turn_direction d 0 = d := by
  have h := turn_direction_rem d k hd0 hd6 hk0 hk1
  have hz : turn_direction d 0 = (d + 0) % 6 :=
    turn_direction_eq d 0 (Int.le_trans (by decide) (Int.add_le_add hd0 (Int.le_refl 0)))
      (Int.le_trans (Int.add_le_add (Int.le_of_lt hd6) (Int.le_refl 0)) (by decide))
  refine ⟨h.1, h.2, ?_⟩
  rw [hz, Int.add_zero]
  exact Int.emod_eq_of_lt hd0 hd6

/-- C8 as amended, at `d = DirectionUp` and `k = -8`. -/
theorem turn_direction_mod_six_witness :
    turn_direction DirectionUp (-8) = DirectionLeft
      ∧ (turn_direction DirectionUp (-8) = turn_direction DirectionUp ((-8) % 6)
        ∧ turn_direction DirectionUp (-8) = turn_direction DirectionUp (int_rem (-8) 6)
        ∧ turn_direction DirectionUp 0 = DirectionUp) :=
  ⟨by decide,
    turn_direction_mod_six DirectionUp (-8) (by decide) (by decide) (by decide) (by decide)⟩

/-- C9, the claim as stated fails: with `d = DirectionUp` (5) and
`times = 2147483647` the result is 2, while `(5 + 2147483647) mod 6 = 0`. -/
theorem turn_direction_not_sum_mod :
    turn_direction DirectionUp 2147483647 = 2
      ∧ (DirectionUp + 2147483647) % 6 = 0
      ∧ turn_direction DirectionUp 2147483647 ≠ (DirectionUp + 2147483647) % 6 := by
  decide

/-- C9 as amended: for every standard direction `d` and every int `times`, the
ordinal of `turn_direction(d, times)` lies in `[0, 6)`; and when
`d + times ≤ 2147483647` (the sum does not overflow) it equals
`(d + times) mod 6` with the non-negative remainder. -/
theorem turn_direction_standard (d : Direction) (times : Int) (hd0 : 0 ≤ d)
    (ht0 : -2147483648 ≤ times) :
    (0 ≤ turn_direction d times ∧ turn_direction d times < 6)
      ∧ (d + times ≤ 2147483647 → turn_direction d times = (d + times) % 6) :=
  ⟨turn_direction_range d times, fun h =>
    turn_direction_eq d times
      (Int.le_trans (by decide : (-2147483648 : Int) ≤ 0 + -2147483648)
        (Int.add_le_add hd0 ht0)) h⟩

/-- C9 as amended, at `d = DirectionDownRight` and `times = -3`, and at the
overflowing `times = 2147483647`, where the result is still a standard
direction. -/
theorem turn_direction_standard_witness :
    turn_direction DirectionDownRight (-3) = DirectionUpLeft
      ∧ ((0 ≤ turn_direction DirectionDownRight (-3) ∧ turn_direction DirectionDownRight (-3) < 6)
        ∧ turn_direction DirectionDownRight (-3) = (DirectionDownRight + -3) % 6)
      ∧ (0 ≤ turn_direction DirectionUp 2147483647 ∧ turn_direction DirectionUp 2147483647 < 6) :=
  ⟨by decide,
    ⟨(turn_direction_standard DirectionDownRight (-3) (by decide) (by decide)).1,
      (turn_direction_standard DirectionDownRight (-3) (by decide) (by decide)).2 (by decide)⟩,
    (turn_direction_standard DirectionUp 2147483647 (by decide) (by decide)).1⟩

/-- C10: for every standard direction `d` (ordinal 0 to 5),
`reverse_direction(reverse_direction(d)) = d`, where `reverse_direction(d)` is
`turn_direction(d, 3)`. -/
theorem reverse_direction_involutive (d : Direction) (hd0 : 0 ≤ d) (hd6 : d < 6) :
    reverse_direction d = turn_direction d 3
      ∧ reverse_direction (reverse_direction d) = d := by
  refine ⟨rfl, ?_⟩
  interval_cases d <;> decide

/-- C10 at `d = DirectionUpLeft`, whose reverse is `DirectionDownRight`. -/
theorem reverse_direction_involutive_witness :
    reverse_direction DirectionUpLeft = DirectionDownRight
      ∧ (reverse_direction DirectionUpLeft = turn_direction DirectionUpLeft 3
        ∧ reverse_direction (reverse_direction DirectionUpLeft) = DirectionUpLeft) :=
  ⟨by decide, reverse_direction_involutive DirectionUpLeft (by decide) (by decide)⟩

/-! ## Movement by several steps -/

namespace MapGeometry

theorem move_right_of_shaped {g : MapGeometry} {cs rs : Nat} (hg : Shaped g cs rs) (q : MapPos) :
    g.move_right q
      = some (2 ^ cs * ((q / 2 ^ cs % 2 ^ rs + 0) % 2 ^ rs) + (q % 2 ^ cs + 1) % 2 ^ cs) := by
  unfold move_right
  rw [move_of_dirs_at q (dirs_at_eq hg).1,
    pos_add_pack hg q 1 0 (one_lt_cols hg) (Nat.two_pow_pos rs)]

theorem move_down_of_shaped {g : MapGeometry} {cs rs : Nat} (hg : Shaped g cs rs) (q : MapPos) :
    g.move_down q
      = some (2 ^ cs * ((q / 2 ^ cs % 2 ^ rs + 1) % 2 ^ rs) + (q % 2 ^ cs + 0) % 2 ^ cs) := by
  unfold move_down
  rw [move_of_dirs_at q (dirs_at_eq hg).2.2.1,
    pos_add_pack hg q 0 1 (Nat.two_pow_pos cs) (one_lt_rows hg)]

/-- The position after `n` single moves to the right. -/
theorem move_right_times_eq {g : MapGeometry} {cs rs : Nat} (hg : Shaped g cs rs) (p : MapPos)
    (hp : p < g.tile_count) (n : Nat) :
    g.move_right_times n p
      = some (2 ^ cs * (p / 2 ^ cs % 2 ^ rs) + (p % 2 ^ cs + n) % 2 ^ cs) := by
  have hC := Nat.two_pow_pos cs
  have hR := Nat.two_pow_pos rs
  induction n with
  | zero =>
    rw [move_right_times, Nat.add_zero, Nat.mod_mod, unpack hg p hp]
  | succ k ih =>
    rw [move_right_times, ih, Option.some_bind, move_right_of_shaped hg,
      pack_mod _ (Nat.mod_lt _ hC), pack_div _ (Nat.mod_lt _ hC)]
    simp only [Nat.add_zero, Nat.mod_mod, Nat.mod_add_mod, Nat.add_assoc]

/-- The position after `n` single moves down. -/
theorem move_down_times_eq {g : MapGeometry} {cs rs : Nat} (hg : Shaped g cs rs) (p : MapPos)
    (hp : p < g.tile_count) (n : Nat) :
    g.move_down_times n p
      = some (2 ^ cs * ((p / 2 ^ cs % 2 ^ rs + n) % 2 ^ rs) + p % 2 ^ cs) := by
  have hC := Nat.two_pow_pos cs
  have hR := Nat.two_pow_pos rs
  induction n with
  | zero =>
    rw [move_down_times, Nat.add_zero, Nat.mod_mod, unpack hg p hp]
  | succ k ih =>
    rw [move_down_times, ih, Option.some_bind, move_down_of_shaped hg,
      pack_mod _ (Nat.mod_lt _ hC), pack_div _ (Nat.mod_lt _ hC)]
    simp only [Nat.add_zero, Nat.mod_mod, Nat.mod_add_mod, Nat.add_assoc]

/-- The value of `move_right_n`: the converted count itself is the offset. -/
theorem move_right_n_eq {g : MapGeometry} {cs rs : Nat} (hg : Shaped g cs rs) (p : MapPos)
    (n : Int) : g.move_right_n p n = some (g.pos_add p (to_unsigned n)) := by
  unfold move_right_n
  rw [(dirs_at_eq hg).1, Option.map_some']
  unfold uint_mul
  rw [Nat.mul_zero, Nat.zero_add, Nat.one_mul, Nat.mod_eq_of_lt (to_unsigned_lt n)]

/-- The offset of `move_down_n`: its column field is 0 and its row field is the
count modulo the number of rows. -/
theorem down_offset_fields {cs rs : Nat} (h : cs + rs ≤ 31) (m : Nat) :
    uint_mul (2 ^ cs * 1 + 0) m % 2 ^ cs = 0
      ∧ uint_mul (2 ^ cs * 1 + 0) m / 2 ^ cs % 2 ^ rs = m % 2 ^ rs := by
  have hC := Nat.two_pow_pos cs
  have h32 : 4294967296 = 2 ^ cs * 2 ^ (32 - cs) := by
    rw [← Nat.pow_add]
    have : cs + (32 - cs) = 32 := by omega
    rw [this]
  have hdvd : 2 ^ rs ∣ 2 ^ (32 - cs) := Nat.pow_dvd_pow 2 (by omega)
  unfold uint_mul
  rw [Nat.mul_one, Nat.add_zero, h32, Nat.mul_mod_mul_left]
  constructor
  · exact Nat.mul_mod_right _ _
  · rw [Nat.mul_div_cancel_left _ hC, Nat.mod_mod_of_dvd _ hdvd]

/-- The value of `move_down_n`, for every count. -/
theorem move_down_n_eq {g : MapGeometry} {cs rs : Nat} (hg : Shaped g cs rs) (p : MapPos)
    (n : Int) :
    g.move_down_n p n
      = some (2 ^ cs * ((p / 2 ^ cs % 2 ^ rs + to_unsigned n % 2 ^ rs) % 2 ^ rs) + p % 2 ^ cs) := by
  have hf := down_offset_fields hg.bits (to_unsigned n)
  unfold move_down_n
  rw [(dirs_at_eq hg).2.2.1, Option.map_some', pos_add_eq hg, hf.1, hf.2, Nat.add_zero,
    Nat.mod_mod]

end MapGeometry

namespace MapGeometry

theorem rows_dvd_nat {cs rs : Nat} (h : cs + rs ≤ 31) : 2 ^ rs ∣ 4294967296 := by
  have h32 : 4294967296 = 2 ^ 32 := by norm_num
  rw [h32]
  exact Nat.pow_dvd_pow 2 (by omega)

/-- C11, the code at the failing input size 1 (32 columns, 32 rows, the same in
either build), `p = 0`, `n = 32 = cols`: `move_right_n(0, 32)` is the position
32, in row 1, while 32 single moves to the right return to the position 0, in
row 0; the bits of `n` above the column field are added to the row. -/
theorem move_right_n_full_turn :
    ∃ g, ctor Shifter.masked 1 = some g ∧ ctor Shifter.flushed 1 = some g ∧ g.cols = 32
      ∧ g.move_right_n 0 32 = some 32
      ∧ g.move_right_times 32 0 = some 0
      ∧ g.pos_row (to_int (32 : Nat)) = 1 ∧ g.pos_row (to_int (0 : Nat)) = 0
      ∧ g.move_down_n 0 32 = some 0 ∧ g.move_down_times 32 0 = some 0 := by
  refine ⟨_, rfl, by decide, by decide, by decide, ?_, by decide, by decide, by decide, ?_⟩
  · rw [@move_right_times_eq _ 5 5 (by constructor <;> decide) 0 (by decide) 32]
    decide
  · rw [@move_down_times_eq _ 5 5 (by constructor <;> decide) 0 (by decide) 32]
    decide

/-- For a count `n` with `0 ≤ n < cols`, `move_right_n(p, n)` is the result of
`n` single moves to the right from a position `p` below the tile count: the
offset `n` then lies inside the column field. -/
theorem move_right_n_steps (sh : Shifter) (size : Nat) (g : MapGeometry)
    (hg : ctor sh size = some g) (p : MapPos) (hp : p < g.tile_count) (n : Int) (hn0 : 0 ≤ n)
    (hn : n < (g.cols : Int)) :
    g.move_right_n p n = g.move_right_times n.toNat p
      ∧ ∃ q, g.move_right_n p n = some q
        ∧ g.pos_col (to_int q) = (g.pos_col (to_int p) + n) % (g.cols : Int)
        ∧ g.pos_row (to_int q) = g.pos_row (to_int p) := by
  rcases ctor_cases sh size g hg with ⟨cs, rs, hs⟩ | hf
  swap
  · rw [flushed_tile_count hf] at hp
    exact absurd hp (Nat.not_lt_zero p)
  have hC := Nat.two_pow_pos cs
  have hR := Nat.two_pow_pos rs
  have hle := cols_le hs.bits
  unfold cols at hn ⊢
  rw [hs.cols_eq] at hn ⊢
  have hnat : n.toNat < 2 ^ cs := by omega
  have hu : to_unsigned n = 2 ^ cs * 0 + n.toNat := by unfold to_unsigned; omega
  have hval : g.move_right_n p n
      = some (2 ^ cs * (p / 2 ^ cs % 2 ^ rs) + (p % 2 ^ cs + n.toNat) % 2 ^ cs) := by
    rw [move_right_n_eq hs, hu, pos_add_pack hs p _ 0 hnat hR, Nat.add_zero, Nat.mod_mod]
  refine ⟨by rw [hval, move_right_times_eq hs p hp], _, hval, ?_, ?_⟩
  · rw [pos_col_nat hs, pos_col_nat hs, pack_mod _ (Nat.mod_lt _ hC), Int.natCast_mod,
      Int.natCast_add, Int.toNat_of_nonneg hn0]
  · rw [pos_row_nat hs, pos_row_nat hs, pack_div _ (Nat.mod_lt _ hC), Nat.mod_mod]

/-- C12: for every engine the constructor builds, in either build, every position `p` below the
tile count and every count `n ≥ 0` (also `n ≥ rows`), `move_down_n(p, n)` is the
result of `n` single moves down: the row advances by `n` modulo `rows` and the
column is unchanged. -/
theorem move_down_n_steps (sh : Shifter) (size : Nat) (g : MapGeometry)
    (hg : ctor sh size = some g) (p : MapPos) (hp : p < g.tile_count) (n : Int) (hn0 : 0 ≤ n) :
    g.move_down_n p n = g.move_down_times n.toNat p
      ∧ ∃ q, g.move_down_n p n = some q
        ∧ g.pos_row (to_int q) = (g.pos_row (to_int p) + n) % (g.rows : Int)
        ∧ g.pos_col (to_int q) = g.pos_col (to_int p) := by
  rcases ctor_cases sh size g hg with ⟨cs, rs, hs⟩ | hf
  swap
  · rw [flushed_tile_count hf] at hp
    exact absurd hp (Nat.not_lt_zero p)
  have hC := Nat.two_pow_pos cs
  have hR := Nat.two_pow_pos rs
  unfold rows
  rw [hs.rows_eq]
  have hu : to_unsigned n = n.toNat % 4294967296 := by unfold to_unsigned; omega
  have hval : g.move_down_n p n
      = some (2 ^ cs * ((p / 2 ^ cs % 2 ^ rs + n.toNat) % 2 ^ rs) + p % 2 ^ cs) := by
    rw [move_down_n_eq hs, hu, Nat.mod_mod_of_dvd _ (rows_dvd_nat hs.bits), Nat.add_mod_mod]
  refine ⟨by rw [hval, move_down_times_eq hs p hp], _, hval, ?_, ?_⟩
  · rw [pos_row_nat hs, pos_row_nat hs, pack_div _ (Nat.mod_lt _ hC), Nat.mod_mod,
      Int.natCast_mod, Int.natCast_add, Int.toNat_of_nonneg hn0]
  · rw [pos_col_nat hs, pos_col_nat hs, pack_mod _ (Nat.mod_lt _ hC)]

/-- C12 at size 1 (32 rows): from position 5 (column 5, row 0) the count 1000
gives position 261 (column 5, row 8 = 1000 mod 32), as 1000 single moves do. -/
theorem move_down_n_steps_witness :
    ∃ g, ctor Shifter.masked 1 = some g ∧ g.move_down_n 5 1000 = some 261
      ∧ (g.move_down_n 5 1000 = g.move_down_times (1000 : Int).toNat 5
        ∧ ∃ q, g.move_down_n 5 1000 = some q
          ∧ g.pos_row (to_int q) = (g.pos_row (to_int (5 : Nat)) + 1000) % (g.rows : Int)
          ∧ g.pos_col (to_int q) = g.pos_col (to_int (5 : Nat))) :=
  ⟨_, rfl, by decide,
    move_down_n_steps Shifter.masked 1 _ rfl 5 (by decide) 1000 (by decide)⟩

end MapGeometry

/-! ## Enumeration -/

namespace MapGeometry

theorem tile_count_le {g : MapGeometry} {cs rs : Nat} (hg : Shaped g cs rs) :
    g.tile_count ≤ 2147483648 := by
  rw [tile_count_eq hg]
  exact two_pow_tiles_le hg.bits

/-- The iterator after `k` steps from `begin()`, for `k` up to the tile count. -/
theorem iterate_inc_begin (g : MapGeometry) (hle : g.tile_count ≤ 2147483648) (k : Nat)
    (hk : k ≤ g.tile_count) :
    Nat.iterate Iterator.inc k g.begin = { geom := g, pos := k } := by
  induction k with
  | zero => rfl
  | succ j ih =>
    rw [Function.iterate_succ_apply', ih (by omega)]
    unfold Iterator.inc uint_add
    have hj : j < g.tile_count := by omega
    simp only [hj, if_true]
    rw [Nat.mod_eq_of_lt (by omega)]

/-- C13: for every engine the constructor builds, in either build, the iterator reached from
`begin()` by `k` applications of `operator ++` differs from `end()` and
dereferences to `k`, for each `k` below the tile count, and the iterator reached
by exactly `tile_count` applications equals `end()`. -/
theorem iterator_enumerates (sh : Shifter) (size : Nat) (g : MapGeometry)
    (hg : ctor sh size = some g) :
    (∀ k : Nat, k < g.tile_count →
        (Nat.iterate Iterator.inc k g.begin).ne g.end_ = true
          ∧ (Nat.iterate Iterator.inc k g.begin).deref = k)
      ∧ (Nat.iterate Iterator.inc g.tile_count g.begin).eq g.end_ = true := by
  have hle : g.tile_count ≤ 2147483648 := by
    rcases ctor_cases sh size g hg with ⟨cs, rs, hs⟩ | hf
    · exact tile_count_le hs
    · rw [flushed_tile_count hf]
      decide
  constructor
  · intro k hk
    rw [iterate_inc_begin g hle k (by omega)]
    unfold Iterator.ne Iterator.eq Iterator.deref end_
    have hne : k ≠ g.tile_count := by omega
    simp [hne]
  · rw [iterate_inc_begin g hle _ (Nat.le_refl _)]
    unfold Iterator.eq end_ eq
    simp

/-- C13 at size 3 (tile count 4096): after 4095 steps the iterator is not `end()`
and dereferences to 4095. -/
theorem iterator_enumerates_witness :
    ∃ g, ctor Shifter.masked 3 = some g ∧ g.tile_count = 4096
      ∧ ((Nat.iterate Iterator.inc 4095 g.begin).ne g.end_ = true
        ∧ (Nat.iterate Iterator.inc 4095 g.begin).deref = 4095)
      ∧ (Nat.iterate Iterator.inc g.tile_count g.begin).eq g.end_ = true :=
  ⟨_, rfl, by decide, (iterator_enumerates Shifter.masked 3 _ rfl).1 4095 (by decide),
    (iterator_enumerates Shifter.masked 3 _ rfl).2⟩

end MapGeometry

/-! ## Construction -/

namespace MapGeometry

/-- For the sizes 1 to 20 the dimensions are the powers of two of the two bit
counts, and the tile count is their product, below `2^32`. -/
theorem dims_of_positive_size (sh : Shifter) (size : Nat) (g : MapGeometry)
    (h : ctor sh size = some g) (h1 : 1 ≤ size) :
    g.cols = 2 ^ (5 + size / 2) ∧ g.rows = 2 ^ (5 + (size - 1) / 2)
      ∧ g.col_size_ = 5 + size / 2 ∧ g.row_size_ = 5 + (size - 1) / 2
      ∧ g.tile_count = g.cols * g.rows ∧ g.cols * g.rows < 4294967296 := by
  have hs := (ctor_sizes sh size g h).1
  unfold ctor at h
  rw [if_pos hs] at h
  have hg := (Option.some.inj h).symm
  subst hg
  interval_cases size <;> cases sh <;> decide

/-- The sentinel is no position of any constructed geometry, and for the sizes
1 to 20 the two bit counts add up to `9 + size`, at most 29. -/
theorem sentinel_above_tiles (sh : Shifter) (size : Nat) (g : MapGeometry)
    (h : ctor sh size = some g) :
    g.tile_count ≤ bad_map_pos ∧ (∀ p : MapPos, p < g.tile_count → p ≠ bad_map_pos)
      ∧ (1 ≤ size → g.col_size_ + g.row_size_ = 9 + size ∧ g.col_size_ + g.row_size_ ≤ 32) := by
  have hle : g.tile_count ≤ 2147483648 := by
    rcases ctor_cases sh size g h with ⟨cs, rs, hs⟩ | hf
    · exact tile_count_le hs
    · rw [flushed_tile_count hf]
      decide
  obtain ⟨hs20, -, hc, hr, -⟩ := ctor_sizes sh size g h
  unfold bad_map_pos
  refine ⟨by omega, fun p hp => Nat.ne_of_lt (Nat.lt_of_lt_of_le hp (by omega)), fun h1 => ?_⟩
  have hw : (size + 4294967295) % 4294967296 = size - 1 := by omega
  rw [hw] at hr
  omega

/-- C14, the code at the failing input `size = 0`: the subtraction `size_ - 1`
wraps to 4294967295, so `row_size_` is 2147483652 and not `5 + (size - 1)/2`;
the shift count of `1 << row_size_` is not below 32.  In a masked build `rows()`
is 16, which is not `2^(5 + (0 - 1)/2) = 2^5` of the integer division of C++,
where `(0 - 1)/2` is 0; in a flushed build `rows()` and `tile_count()` are 0,
neither `2^5` nor `2^4`. -/
theorem ctor_zero_dims :
    (∃ g, ctor Shifter.masked 0 = some g ∧ uint_sub 0 1 = 4294967295
      ∧ g.row_size_ = 2147483652
      ∧ ¬ g.row_size_ < 32 ∧ g.row_size_ % 32 = 4
      ∧ g.cols = 32 ∧ g.rows = 16 ∧ g.tile_count = 512
      ∧ Int.tdiv (0 - 1) 2 = 0
      ∧ g.rows ≠ 2 ^ (5 + Int.tdiv (0 - 1) 2).toNat)
    ∧ (∃ g, ctor Shifter.flushed 0 = some g ∧ g.row_size_ = 2147483652
      ∧ ¬ g.row_size_ < 32 ∧ g.cols = 32 ∧ g.rows = 0 ∧ g.tile_count = 0
      ∧ g.rows ≠ 2 ^ 5 ∧ g.rows ≠ 2 ^ 4) := by
  constructor
  · refine ⟨_, rfl, ?_⟩
    decide
  · refine ⟨_, rfl, ?_⟩
    decide

/-- C15, the code at the failing input `size = 0`: `col_size_ + row_size_` is
2147483657, above 32, in either build, while the tile count (512 in a masked
build, 0 in a flushed one) is below the sentinel; in the flushed build
`move(0, DirectionUpLeft)` returns the sentinel itself. -/
theorem ctor_zero_bit_count :
    (∃ g, ctor Shifter.masked 0 = some g ∧ g.col_size_ + g.row_size_ = 2147483657
      ∧ ¬ g.col_size_ + g.row_size_ ≤ 32
      ∧ g.tile_count = 512 ∧ g.tile_count ≤ bad_map_pos)
    ∧ (∃ g, ctor Shifter.flushed 0 = some g ∧ g.col_size_ + g.row_size_ = 2147483657
      ∧ ¬ g.col_size_ + g.row_size_ ≤ 32
      ∧ g.tile_count = 0 ∧ g.tile_count ≤ bad_map_pos
      ∧ g.move 0 DirectionUpLeft = some bad_map_pos) := by
  constructor
  · refine ⟨_, rfl, ?_⟩
    decide
  · refine ⟨_, rfl, ?_⟩
    decide

/-- C16, the code at the failing input `size = 0`: the assertion holds and the
constructor returns an object in either build, but after the shift
`1 << row_size_` by 2147483652 the object of a flushed build has `rows()` 0, a
row mask of all ones and tile count 0: `begin()` equals `end()`, so that the
enumeration visits no tile, and `pos_add(0, 0)` is not below the tile count. -/
theorem ctor_zero_unusable :
    (ctor Shifter.masked 0).isSome = true ∧ (ctor Shifter.flushed 0).isSome = true
      ∧ ∃ g, ctor Shifter.flushed 0 = some g ∧ ¬ g.row_size_ < 32
        ∧ g.rows = 0 ∧ g.row_mask = 4294967295 ∧ g.tile_count = 0
        ∧ g.begin.eq g.end_ = true
        ∧ g.pos_add 0 0 = 0 ∧ ¬ g.pos_add 0 0 < g.tile_count := by
  refine ⟨by decide, by decide, _, rfl, ?_⟩
  decide

/-- C17, the code at `size = 0`: `col_size_` is 5 but `row_size_` is 2147483652
and not 4, in either build.  In a masked build the other values of the scenario
are those of the claim; in a flushed build `rows()` and the tile count are 0. -/
theorem ctor_zero_scenario :
    (∃ g, ctor Shifter.masked 0 = some g ∧ g.col_size_ = 5 ∧ g.row_size_ = 2147483652
      ∧ g.row_size_ ≠ 4
      ∧ g.cols = 32 ∧ g.rows = 16 ∧ g.tile_count = 512
      ∧ g.pos 0 0 = 0 ∧ g.pos 31 0 = 31
      ∧ g.move (g.pos 31 0) DirectionRight = some (g.pos 0 0))
    ∧ (∃ g, ctor Shifter.flushed 0 = some g ∧ g.col_size_ = 5 ∧ g.row_size_ = 2147483652
      ∧ g.row_size_ ≠ 4
      ∧ g.cols = 32 ∧ g.rows = 0 ∧ g.tile_count = 0
      ∧ g.pos 0 0 = 0 ∧ g.pos 31 0 = 31
      ∧ g.move (g.pos 31 0) DirectionRight = some (g.pos 0 0)) := by
  constructor
  · refine ⟨_, rfl, ?_⟩
    decide
  · refine ⟨_, rfl, ?_⟩
    decide

end MapGeometry

/-! ## Non-standard directions and the packing formula -/

/-- C18, the claim as stated fails: called with the non-standard directions
`DirectionUpRight` (6) and `DirectionDownLeft` (7), `turn_direction` and
`reverse_direction` return a direction value and reject nothing:
`turn_direction(UpRight, 0)` is `DirectionRight`, `reverse_direction(UpRight)` is
`DirectionLeft` and `reverse_direction(DownLeft)` is `DirectionUpLeft`. -/
theorem turn_direction_accepts_derived :
    turn_direction DirectionUpRight 0 = DirectionRight
      ∧ turn_direction DirectionDownLeft 0 = DirectionDownRight
      ∧ reverse_direction DirectionUpRight = DirectionLeft
      ∧ reverse_direction DirectionDownLeft = DirectionUpLeft := by
  decide

/-- C18 as amended: called with a non-standard direction `d` (`DirectionUpRight`
or `DirectionDownLeft`), `turn_direction(d, times)` returns the standard
direction `(d + times) mod 6` whenever the sum does not overflow, and
`reverse_direction(d)` returns `d - 3`; no call is rejected. -/
theorem turn_direction_of_derived (d : Direction) (times : Int)
    (hd : d = DirectionUpRight ∨ d = DirectionDownLeft) (ht0 : -2147483648 ≤ times)
    (ht1 : d + times ≤ 2147483647) :
    turn_direction d times = (d + times) % 6
      ∧ (0 ≤ turn_direction d times ∧ turn_direction d times < 6)
      ∧ reverse_direction d = d - 3 := by
  have hd0 : (0 : Int) ≤ d := by
    rcases hd with h | h <;> rw [h] <;> decide
  refine ⟨turn_direction_eq d times
      (Int.le_trans (by decide : (-2147483648 : Int) ≤ 0 + -2147483648)
        (Int.add_le_add hd0 ht0)) ht1,
    turn_direction_range d times, ?_⟩
  rcases hd with h | h <;> rw [h] <;> decide

/-- C18 as amended, at `d = DirectionDownLeft` and `times = -2`: the result is
`DirectionUp`. -/
theorem turn_direction_of_derived_witness :
    turn_direction DirectionDownLeft (-2) = DirectionUp
      ∧ (turn_direction DirectionDownLeft (-2) = (DirectionDownLeft + -2) % 6
        ∧ (0 ≤ turn_direction DirectionDownLeft (-2) ∧ turn_direction DirectionDownLeft (-2) < 6)
        ∧ reverse_direction DirectionDownLeft = DirectionDownLeft - 3) :=
  ⟨by decide,
    turn_direction_of_derived DirectionDownLeft (-2) (Or.inr rfl) (by decide) (by decide)⟩

namespace MapGeometry

/-- C19, the claim as stated fails: at the even size 4 the column takes 7 bits
and the row 6 bits; `pos(0, 1)` is `1 << 7 = 128`, while `(1 << row_size) | 0`
is 64. -/
theorem pos_shift_at_even_size :
    ∃ g, ctor Shifter.masked 4 = some g ∧ g.col_size_ = 7 ∧ g.row_size_ = 6 ∧ g.row_shift_ = 7
      ∧ g.pos 0 1 = 128 ∧ (1 <<< g.row_size_) ||| 0 = 64
      ∧ g.pos 0 1 ≠ (1 <<< g.row_size_) ||| 0 := by
  refine ⟨_, rfl, ?_⟩
  decide

/-- C19 as amended: for every engine the constructor builds, in either build,
and every in-range
column `c` and row `r`, `pos(c, r)` is `(r << col_size) | c`, the shift being
`row_shift_ = col_size_`: the column is in the low `col_size` bits and the row in
the bits above them.  For an odd size `col_size` equals `row_size`, and the value
is `(r << row_size) | c` as well. -/
theorem pos_packing (sh : Shifter) (size : Nat) (g : MapGeometry)
    (hg : ctor sh size = some g) (c r : Nat) (hc : c < g.cols) (hr : r < g.rows) :
    g.pos c r = (r <<< g.col_size_) ||| c
      ∧ g.row_shift_ = g.col_size_
      ∧ g.pos c r % 2 ^ g.col_size_ = c ∧ g.pos c r / 2 ^ g.col_size_ = r
      ∧ (size % 2 = 1 → g.row_size_ = g.col_size_ ∧ g.pos c r = (r <<< g.row_size_) ||| c) := by
  rcases ctor_cases sh size g hg with ⟨cs, rs, hs⟩ | hf
  swap
  · unfold rows at hr
    rw [hf.rows_eq] at hr
    exact absurd hr (Nat.not_lt_zero r)
  obtain ⟨hs20, -, hcs, hrs, hsh⟩ := ctor_sizes sh size g hg
  have hcol : g.col_size_ = cs := by rw [← hsh, hs.row_shift_eq]
  unfold cols at hc
  unfold rows at hr
  rw [hs.cols_eq] at hc
  rw [hs.rows_eq] at hr
  have hval : g.pos c r = 2 ^ cs * r + c := pos_nat hs c r hc hr
  have hor : g.pos c r = (r <<< cs) ||| c := by
    rw [hval, Nat.shiftLeft_eq, Nat.mul_comm r]
    exact Nat.mul_add_lt_is_or hc r
  refine ⟨by rw [hcol]; exact hor, hsh, ?_, ?_, ?_⟩
  · rw [hcol, hval]
    exact pack_mod r hc
  · rw [hcol, hval]
    exact pack_div r hc
  · intro hodd
    have heq : g.row_size_ = g.col_size_ := by
      rw [hcs, hrs]
      omega
    exact ⟨heq, by rw [heq, hcol]; exact hor⟩

/-- C19 as amended, at the even size 4 and at the odd size 3: `pos(5, 3)` is
`(3 << 7) | 5 = 389` at size 4 and `(3 << 6) | 5 = 197` at size 3. -/
theorem pos_packing_witness :
    (∃ g, ctor Shifter.masked 4 = some g ∧ g.pos (5 : Nat) (3 : Nat) = 389
      ∧ g.pos (5 : Nat) (3 : Nat) = (3 <<< g.col_size_) ||| 5)
    ∧ (∃ g, ctor Shifter.masked 3 = some g ∧ g.pos (5 : Nat) (3 : Nat) = 197
      ∧ g.pos (5 : Nat) (3 : Nat) = (3 <<< g.row_size_) ||| 5) :=
  ⟨⟨_, rfl, by decide, (pos_packing Shifter.masked 4 _ rfl 5 3 (by decide) (by decide)).1⟩,
    ⟨_, rfl, by decide,
      ((pos_packing Shifter.masked 3 _ rfl 5 3 (by decide) (by decide)).2.2.2.2
        (by decide)).2⟩⟩

end MapGeometry

/-! ## The event loop -/

namespace EventLoop

/-- The loop of `notify_handlers` calls exactly the entries that are not in
`removed`, in order, and or-s their answers. -/
theorem foldl_notify_step (removed : List Handler) (handle_event : Handler → Bool)
    (handlers : List Handler) (acc : Bool × List Handler) :
    handlers.foldl (notify_step removed handle_event) acc
      = (acc.1 || (handlers.filter (fun h => !removed.contains h)).any handle_event,
          acc.2 ++ handlers.filter (fun h => !removed.contains h)) := by
  induction handlers generalizing acc with
  | nil => simp
  | cons h t ih =>
    rw [List.foldl_cons, ih]
    unfold notify_step
    by_cases hc : h ∈ removed
    · simp [hc]
    · simp [hc, Bool.or_assoc]

/-- What `notify_handlers` does: with no entry it returns false and leaves
`removed` as it is; otherwise it calls `handle_event` once for each entry of
`event_handlers` whose handler is not in `removed`, in order, returns whether one
of the calls returned true, and clears `removed`. -/
theorem notify_handlers_calls (l : EventLoop) (handle_event : Handler → Bool) :
    (l.event_handlers = [] → l.notify_handlers handle_event = (false, [], l))
      ∧ (l.event_handlers ≠ [] →
        l.notify_handlers handle_event
          = ((l.event_handlers.filter (fun h => !l.removed.contains h)).any handle_event,
              l.event_handlers.filter (fun h => !l.removed.contains h),
              { l with removed := [] })) := by
  unfold notify_handlers
  constructor
  · intro h
    simp [h]
  · intro h
    have he : l.event_handlers.isEmpty = false := by
      cases hl : l.event_handlers with
      | nil => exact absurd hl h
      | cons a t => rfl
    rw [he]
    simp [foldl_notify_step]

/-- C20, the code at the failing input `add_handler(h); del_handler(h);
add_handler(h); notify_handlers(e)` with `h = 1` and a handler that answers
true: `h` is registered and still in `removed`, `handle_event` is called on no
handler and the result is false.  The same happens when a notification ran in
between on the empty list, which returns before `removed` is cleared. -/
theorem notify_skips_readded_handler :
    (((ctor.add_handler 1).del_handler 1).add_handler 1).event_handlers = [1]
      ∧ (((ctor.add_handler 1).del_handler 1).add_handler 1).removed = [1]
      ∧ (((ctor.add_handler 1).del_handler 1).add_handler 1).notify_handlers (fun _ => true)
        = (false, [], { event_handlers := [1], removed := [] })
      ∧ (((ctor.add_handler 1).del_handler 1).notify_handlers (fun _ => true)).2.2
        = { event_handlers := [], removed := [1] }
      ∧ (((((ctor.add_handler 1).del_handler 1).notify_handlers (fun _ => true)).2.2).add_handler
          1).notify_handlers (fun _ => true)
        = (false, [], { event_handlers := [1], removed := [] })
      ∧ (ctor.add_handler 1).notify_handlers (fun _ => true)
        = (true, [1], { event_handlers := [1], removed := [] }) := by
  decide

end EventLoop

end Freeserf
